import Mathlib

/-!
Verification development for the goshimmer UTXO transaction core
(packages/transaction_wrapped) and the FPC voting engine
(packages/vote/fpc).  Go values are shallowly embedded: byte slices
become `List Nat`, machine integers become `Nat` / `Int`, `time.Time`
becomes `Int` nanoseconds with `0` playing the role of the Go zero
time, and the cryptographic primitives (blake2b, ed25519/BLS verify)
are abstracted into a `Crypto` record of pure functions, since every
property proved here is independent of the concrete hash values.
-/

namespace GoShimmer

/-- Abstract cryptographic primitives used by the transaction core.
`blake2b` models `blake2b.Sum256` (as a function on byte lists),
`ed25519Verify pk data sig` models `publicKey.VerifySignature(data, sig)`
and `blsVerify sigWithPk data` models `Signature.IsValid(data)`. -/
structure Crypto where
  blake2b : List Nat → List Nat
  ed25519Verify : List Nat → List Nat → List Nat → Bool
  blsVerify : List Nat → List Nat → Bool

/-- The three address kinds of color.go (AddressType constants). -/
inductive AddressType
  | ed25519
  | bls
  | aliasAddr
deriving DecidableEq

/-- An Address: 1-byte type tag plus digest bytes.  The three Go structs
ED25519Address, BLSAddress and AliasAddress all consist of a digest and
implement `Equals` as type-tag equality plus bytewise digest equality,
so they are embedded as a single record with the tag made explicit. -/
structure Address where
  addrType : AddressType
  digest : List Nat
deriving DecidableEq

/-- Address.Equals from color.go: same type tag and equal digest bytes. -/
def Address.equals (a other : Address) : Bool :=
  a.addrType == other.addrType && a.digest == other.digest

/-- The all-zero 32-byte digest, the zero value of `[32]byte`. -/
def zeroDigest32 : List Nat := List.replicate 32 0

/-- AliasAddress.IsNil from color.go: digest equals the zero value. -/
def aliasDigestIsNil (digest : List Nat) : Bool :=
  digest == zeroDigest32

/-- ED25519Signature from signature.go: a public key and a signature. -/
structure ED25519Signature where
  publicKey : List Nat
  signature : List Nat
deriving DecidableEq

/-- ED25519Signature.AddressSignatureValid (signature.go lines 93-105):
the address must be of ED25519 type, blake2b of the public key must
equal the address digest, and the ed25519 signature must verify. -/
def ED25519Signature.addressSignatureValid (c : Crypto) (e : ED25519Signature)
    (address : Address) (data : List Nat) : Bool :=
  if address.addrType != AddressType.ed25519 then
    false
  else if c.blake2b e.publicKey != address.digest then
    false
  else
    c.ed25519Verify e.publicKey data e.signature

/-- BLSSignature from signature.go: the combined signature-with-public-key
bytes, with the public key bytes kept separately for the digest check. -/
structure BLSSignature where
  publicKeyBytes : List Nat
  sigWithPublicKey : List Nat
deriving DecidableEq

/-- BLSSignature.AddressSignatureValid (signature.go lines 159-171). -/
def BLSSignature.addressSignatureValid (c : Crypto) (b : BLSSignature)
    (address : Address) (data : List Nat) : Bool :=
  if address.addrType != AddressType.bls then
    false
  else if c.blake2b b.publicKeyBytes != address.digest then
    false
  else
    c.blsVerify b.sigWithPublicKey data

/-- The Signature interface: one of the two concrete signature kinds. -/
inductive Signature
  | ed25519 (s : ED25519Signature)
  | bls (b : BLSSignature)
deriving DecidableEq

/-- Signature.AddressSignatureValid dispatched on the concrete kind. -/
def Signature.addressSignatureValid (c : Crypto) (s : Signature)
    (address : Address) (data : List Nat) : Bool :=
  match s with
  | Signature.ed25519 e => e.addressSignatureValid c address data
  | Signature.bls b => b.addressSignatureValid c address data

/-- The three unlock block kinds of unnamed/part_004: a
SignatureUnlockBlock carrying a Signature, a ReferenceUnlockBlock and an
AliasUnlockBlock carrying a 16-bit index (embedded as Nat). -/
inductive UnlockBlock
  | signature (sig : Signature)
  | reference (idx : Nat)
  | aliasRef (idx : Nat)
deriving DecidableEq

/-- SignatureUnlockBlock.AddressSignatureValid as written in the source
(unnamed/part_004 lines 104-107): the body is
`return s.AddressSignatureValid(address, signedData)`, a call of the very
method being defined, not of the contained signature.  The unbounded
self-recursion is embedded with an explicit fuel argument; `none` marks
the computation that has not returned within the given fuel. -/
def signatureUnlockBlockAddressSignatureValid (c : Crypto) (sig : Signature)
    (address : Address) (signedData : List Nat) : Nat → Option Bool
  | 0 => none
  | fuel + 1 => signatureUnlockBlockAddressSignatureValid c sig address signedData fuel

/-- Delegation modelled from the spec: section 4.4 and the design note in
section 9 state that `SignatureUnlockBlock.AddressSignatureValid` is
intended to delegate directly to the contained signature; the method body
in the source instead recurses on itself.  This is the intended
behaviour, kept for comparison with the embedded source above. -/
def signatureUnlockBlockAddressSignatureValidSpec (c : Crypto) (sig : Signature)
    (address : Address) (signedData : List Nat) : Bool :=
  sig.addressSignatureValid c address signedData

/-- A Color is a 32-byte tag; embedded as a byte list. -/
def Color := List Nat
deriving DecidableEq

/-- ColorIOTA, the zero value of Color (color.go). -/
def colorIOTA : Color := List.replicate 32 0

/-- ColoredBalances in canonical form: an association list from color to
balance, as produced by NewColoredBalances (zero balances dropped,
colors in ascending byte order, no duplicate colors). -/
def ColoredBalances := List (Color × Nat)
deriving DecidableEq

/-- ColoredBalances.Get: the balance stored for the color, if present. -/
def ColoredBalances.get (b : ColoredBalances) (col : Color) : Option Nat :=
  List.lookup col b

/-- equalColoredBalances (input.go lines 1538-1556): collect every color
occurring in either collection and require Get to agree on each. -/
def equalColoredBalances (b1 b2 : ColoredBalances) : Bool :=
  (List.map Prod.fst b1 ++ List.map Prod.fst b2).all
    (fun col => b1.get col == b2.get col)

/-- DustThresholdAliasOutputIOTA from input.go. -/
def dustThresholdAliasOutputIOTA : Nat := 100

/-- IsExactDustMinimum (input.go lines 1567-1577): exactly one entry,
keyed by ColorIOTA, holding exactly the dust threshold.  The embedded
balances are canonical, so the map length equals the list length. -/
def isExactDustMinimum (b : ColoredBalances) : Bool :=
  b.length == 1 && b.get colorIOTA == some dustThresholdAliasOutputIOTA

/-- AliasOutput (input.go lines 944-985).  Times are Int nanoseconds,
with 0 standing for the Go zero time; the stored AliasAddress appears as
its digest bytes.  The governing address is optional (nil means self
governed). -/
structure AliasOutput where
  outputID : List Nat
  balances : ColoredBalances
  aliasAddressDigest : List Nat
  stateAddress : Address
  stateIndex : Nat
  stateData : List Nat
  governanceMetadata : List Nat
  immutableData : List Nat
  isGovernanceUpdate : Bool
  governingAddress : Option Address
  isOrigin : Bool
  isDelegated : Bool
  delegationTimelock : Int
deriving DecidableEq

/-- AliasOutput.GetAliasAddress (input.go lines 1047-1053): when the
stored alias address is the nil digest the address is freshly computed
as blake2b of the output ID bytes, otherwise the stored one is used. -/
def AliasOutput.getAliasAddress (c : Crypto) (a : AliasOutput) : Address :=
  if aliasDigestIsNil a.aliasAddressDigest then
    { addrType := AddressType.aliasAddr, digest := c.blake2b a.outputID }
  else
    { addrType := AddressType.aliasAddr, digest := a.aliasAddressDigest }

/-- AliasOutput.IsSelfGoverned (input.go line 1081): no governing address set. -/
def AliasOutput.isSelfGoverned (a : AliasOutput) : Bool :=
  a.governingAddress.isNone

/-- AliasOutput.GetGoverningAddress (input.go lines 1112-1118): the state
address when self governed, the stored governing address otherwise. -/
def AliasOutput.getGoverningAddress (a : AliasOutput) : Address :=
  match a.governingAddress with
  | none => a.stateAddress
  | some g => g

/-- AliasOutput.DelegationTimelock (input.go lines 1194-1201): the zero
time when not delegated. -/
def AliasOutput.delegationTimelockValue (a : AliasOutput) : Int :=
  if a.isDelegated then a.delegationTimelock else 0

/-- AliasOutput.DelegationTimeLockedNow (input.go lines 1203-1209):
false when not delegated or the timelock is the zero time, otherwise
whether the timelock lies strictly after the given time. -/
def AliasOutput.delegationTimeLockedNow (a : AliasOutput) (nowis : Int) : Bool :=
  if !a.isDelegated || a.delegationTimelock == 0 then
    false
  else
    decide (nowis < a.delegationTimelock)

/-- The checks of AliasOutput.validateTransition (input.go lines
1579-1656), one constructor per distinct error return. -/
inductive TransitionErr
  | aliasAddressModified
  | immutableDataModified
  | stateDataModified
  | stateIndexModified
  | tokensModified
  | governanceNotAllowedYet
  | stateIndexNotIncremented
  | stateAddressModified
  | governingAddressModified
  | governanceMetadataModified
  | delegatedTokensModified
  | delegationStatusModified
  | delegationTimelockModified
  | stateTransitionTooLate
deriving DecidableEq

/-- AliasOutput.validateTransition (input.go lines 1579-1656): the
transition constraints between the spent alias output and its chained
successor, checked against the transaction timestamp.  `none` means the
transition is valid. -/
def AliasOutput.validateTransition (c : Crypto) (a chained : AliasOutput)
    (txTimestamp : Int) : Option TransitionErr :=
  if !(a.getAliasAddress c).equals (chained.getAliasAddress c) then
    some TransitionErr.aliasAddressModified
  else if a.immutableData != chained.immutableData then
    some TransitionErr.immutableDataModified
  else if chained.isGovernanceUpdate then
    if a.stateData != chained.stateData then
      some TransitionErr.stateDataModified
    else if a.stateIndex != chained.stateIndex then
      some TransitionErr.stateIndexModified
    else if !equalColoredBalances a.balances chained.balances then
      some TransitionErr.tokensModified
    else if a.isDelegated && a.delegationTimeLockedNow txTimestamp then
      some TransitionErr.governanceNotAllowedYet
    else
      none
  else
    if a.stateIndex + 1 != chained.stateIndex then
      some TransitionErr.stateIndexNotIncremented
    else if !a.stateAddress.equals chained.stateAddress then
      some TransitionErr.stateAddressModified
    else if a.isSelfGoverned != chained.isSelfGoverned
        || (a.governingAddress.isSome &&
            !(a.getGoverningAddress).equals (chained.getGoverningAddress)) then
      some TransitionErr.governingAddressModified
    else if a.governanceMetadata != chained.governanceMetadata then
      some TransitionErr.governanceMetadataModified
    else if a.isDelegated && !equalColoredBalances a.balances chained.balances then
      some TransitionErr.delegatedTokensModified
    else if a.isDelegated != chained.isDelegated then
      some TransitionErr.delegationStatusModified
    else if a.delegationTimelockValue != chained.delegationTimelockValue then
      some TransitionErr.delegationTimelockModified
    else if a.isDelegated && a.delegationTimelockValue != 0
        && !a.delegationTimeLockedNow txTimestamp then
      some TransitionErr.stateTransitionTooLate
    else
      none

/-- AliasOutput.validateDestroyTransitionNow (input.go lines 1658-1668):
destruction requires exact dust minimum unless delegated, and a delegated
alias may not be destroyed while its delegation timelock is active.
`false` means an error is returned. -/
def AliasOutput.validateDestroyTransitionNow (a : AliasOutput) (nowis : Int) : Bool :=
  if !a.isDelegated && !isExactDustMinimum a.balances then
    false
  else if a.isDelegated && a.delegationTimeLockedNow nowis then
    false
  else
    true

/-- SigLockedSingleOutput (input.go lines 586-596): one uncolored
balance locked to an address.  The output ID is storage metadata. -/
structure SigLockedSingleOutput where
  outputID : List Nat
  balance : Nat
  address : Address
deriving DecidableEq

/-- SigLockedColoredOutput (input.go lines 753-763). -/
structure SigLockedColoredOutput where
  outputID : List Nat
  balances : ColoredBalances
  address : Address
deriving DecidableEq

/-- ExtendedLockedOutput (input.go lines 1739-1760): colored balances
locked to an address, with optional fallback address and deadline,
optional timelock and an optional data payload.  Times are Int
nanoseconds with 0 for the Go zero time. -/
structure ExtendedLockedOutput where
  outputID : List Nat
  balances : ColoredBalances
  address : Address
  fallbackAddress : Option Address
  fallbackDeadline : Int
  timelock : Int
  payload : List Nat
deriving DecidableEq

/-- The Output interface: one of the four concrete output kinds. -/
inductive Output
  | sigLockedSingle (o : SigLockedSingleOutput)
  | sigLockedColored (o : SigLockedColoredOutput)
  | aliasOut (o : AliasOutput)
  | extended (o : ExtendedLockedOutput)
deriving DecidableEq

/-- The view of a Transaction consumed by unlock validation: the outputs
of its essence, the canonical serialization of the essence (kept
abstract, it is only ever passed to signature checks) and the essence
timestamp. -/
structure Transaction where
  essenceOutputs : List Output
  essenceBytes : List Nat
  timestamp : Int
deriving DecidableEq

/-- The loop body of AliasOutput.findChainedOutputAndCheckFork (input.go
lines 1518-1535): scan the transaction outputs for alias outputs whose
alias address equals the given one; a second match is the duplicated
alias error. -/
def findChainedLoop (c : Crypto) (aliasAddress : Address) :
    List Output → Option AliasOutput → Except Unit (Option AliasOutput)
  | [], acc => Except.ok acc
  | out :: rest, acc =>
    match out with
    | Output.aliasOut outAlias =>
      if !aliasAddress.equals (outAlias.getAliasAddress c) then
        findChainedLoop c aliasAddress rest acc
      else
        match acc with
        | some _ => Except.error ()
        | none => findChainedLoop c aliasAddress rest (some outAlias)
    | _ => findChainedLoop c aliasAddress rest acc

/-- AliasOutput.findChainedOutputAndCheckFork (input.go lines 1515-1535):
the unique chained successor of this alias in the transaction outputs,
`ok none` when there is none, an error when it is not unique. -/
def AliasOutput.findChainedOutputAndCheckFork (c : Crypto) (a : AliasOutput)
    (tx : Transaction) : Except Unit (Option AliasOutput) :=
  findChainedLoop c (a.getAliasAddress c) tx.essenceOutputs none

/-- AliasOutput.hasToBeUnlockedForGovernanceUpdate (input.go lines
1710-1723): false on a fork error, true when no chained output exists
(destruction needs a governance unlock), otherwise the governance flag
of the chained output. -/
def AliasOutput.hasToBeUnlockedForGovernanceUpdate (c : Crypto) (a : AliasOutput)
    (tx : Transaction) : Bool :=
  match a.findChainedOutputAndCheckFork c tx with
  | Except.error _ => false
  | Except.ok none => true
  | Except.ok (some chained) => chained.isGovernanceUpdate

/-- The possible outcomes of running an UnlockValid method: a normal
return carrying the unlockValid flag and whether a non-nil error was
returned, a run-time out-of-range slice access (a Go panic), or a
computation that exhausted its fuel without returning (divergence of the
self-recursive SignatureUnlockBlock.AddressSignatureValid). -/
inductive UnlockOutcome
  | ret (valid : Bool) (isErr : Bool)
  | outOfRange
  | divergent
deriving DecidableEq

/-- SigLockedSingleOutput.UnlockValid (input.go lines 643-671).  The
signature branch calls the self-recursive
SignatureUnlockBlock.AddressSignatureValid; the alias branch checks the
address type, indexes the inputs slice with the unchecked referenced
index (out of range is a panic), requires the referenced input to be an
alias output with the same alias address and accepts when the referenced
alias is not being unlocked for a governance update. -/
def SigLockedSingleOutput.unlockValid (c : Crypto) (fuel : Nat)
    (s : SigLockedSingleOutput) (tx : Transaction) (unlockBlock : UnlockBlock)
    (inputs : List Output) : UnlockOutcome :=
  match unlockBlock with
  | UnlockBlock.signature sig =>
    match signatureUnlockBlockAddressSignatureValid c sig s.address tx.essenceBytes fuel with
    | none => UnlockOutcome.divergent
    | some b => UnlockOutcome.ret b false
  | UnlockBlock.aliasRef k =>
    if s.address.addrType != AddressType.aliasAddr then
      UnlockOutcome.ret false true
    else
      match inputs.get? k with
      | none => UnlockOutcome.outOfRange
      | some (Output.aliasOut refAliasOutput) =>
        if !s.address.equals (refAliasOutput.getAliasAddress c) then
          UnlockOutcome.ret false true
        else
          UnlockOutcome.ret (!refAliasOutput.hasToBeUnlockedForGovernanceUpdate c tx) false
      | some _ => UnlockOutcome.ret false true
  | UnlockBlock.reference _ => UnlockOutcome.ret false true

/-- AliasOutput.unlockedGovernanceTransitionByAliasIndex (input.go lines
1670-1688).  The guard on the referenced index is the one of the source:
`int(refIndex) > len(inputs)`, so an index equal to the length passes the
guard and the subsequent slice access panics (`none`). -/
def AliasOutput.unlockedGovernanceTransitionByAliasIndex (c : Crypto)
    (a : AliasOutput) (tx : Transaction) (refIndex : Nat)
    (inputs : List Output) : Option (Bool × Bool) :=
  if (a.getGoverningAddress).addrType != AddressType.aliasAddr then
    some (false, true)
  else if refIndex > inputs.length then
    some (false, true)
  else
    match inputs.get? refIndex with
    | none => none
    | some (Output.aliasOut refInput) =>
      if !(refInput.getAliasAddress c).equals a.getGoverningAddress then
        some (false, true)
      else
        some (!refInput.hasToBeUnlockedForGovernanceUpdate c tx, false)
    | some _ => some (false, true)

/-- AliasOutput.unlockedStateTransitionByAliasIndex (input.go lines
1690-1708), with the same off-by-one index guard as the governance
variant but dereferencing through the state address. -/
def AliasOutput.unlockedStateTransitionByAliasIndex (c : Crypto)
    (a : AliasOutput) (tx : Transaction) (refIndex : Nat)
    (inputs : List Output) : Option (Bool × Bool) :=
  if a.stateAddress.addrType != AddressType.aliasAddr then
    some (false, true)
  else if refIndex > inputs.length then
    some (false, true)
  else
    match inputs.get? refIndex with
    | none => none
    | some (Output.aliasOut refInput) =>
      if !(refInput.getAliasAddress c).equals a.stateAddress then
        some (false, true)
      else
        some (!refInput.hasToBeUnlockedForGovernanceUpdate c tx, false)
    | some _ => some (false, true)

/-- AliasOutput.UnlockValid (input.go lines 1344-1418): locate the
chained successor, then dispatch on the unlock block kind; signature
unlocks go through the self-recursive unlock block method, alias unlocks
through the one-step dereference helpers; in both cases a present
chained output must pass validateTransition and an absent one must pass
the destroy validation. -/
def AliasOutput.unlockValid (c : Crypto) (fuel : Nat) (a : AliasOutput)
    (tx : Transaction) (unlockBlock : UnlockBlock)
    (inputs : List Output) : UnlockOutcome :=
  match a.findChainedOutputAndCheckFork c tx with
  | Except.error _ => UnlockOutcome.ret false true
  | Except.ok chainedOpt =>
    match unlockBlock with
    | UnlockBlock.signature sig =>
      match chainedOpt with
      | some chained =>
        let addr := if chained.isGovernanceUpdate then a.getGoverningAddress else a.stateAddress
        match signatureUnlockBlockAddressSignatureValid c sig addr tx.essenceBytes fuel with
        | none => UnlockOutcome.divergent
        | some false => UnlockOutcome.ret false true
        | some true =>
          match a.validateTransition c chained tx.timestamp with
          | some _ => UnlockOutcome.ret false true
          | none => UnlockOutcome.ret true false
      | none =>
        match signatureUnlockBlockAddressSignatureValid c sig a.getGoverningAddress tx.essenceBytes fuel with
        | none => UnlockOutcome.divergent
        | some false => UnlockOutcome.ret false true
        | some true =>
          if !a.validateDestroyTransitionNow tx.timestamp then
            UnlockOutcome.ret false true
          else
            UnlockOutcome.ret true false
    | UnlockBlock.aliasRef k =>
      match chainedOpt with
      | some chained =>
        match (if chained.isGovernanceUpdate then
                 a.unlockedGovernanceTransitionByAliasIndex c tx k inputs
               else
                 a.unlockedStateTransitionByAliasIndex c tx k inputs) with
        | none => UnlockOutcome.outOfRange
        | some (false, _) => UnlockOutcome.ret false true
        | some (true, _) =>
          match a.validateTransition c chained tx.timestamp with
          | some _ => UnlockOutcome.ret false true
          | none => UnlockOutcome.ret true false
      | none =>
        match a.unlockedGovernanceTransitionByAliasIndex c tx k inputs with
        | none => UnlockOutcome.outOfRange
        | some (false, _) => UnlockOutcome.ret false true
        | some (true, _) =>
          if !a.validateDestroyTransitionNow tx.timestamp then
            UnlockOutcome.ret false true
          else
            UnlockOutcome.ret true false
    | UnlockBlock.reference _ => UnlockOutcome.ret false true

/-- ExtendedLockedOutput.TimeLockedNow (input.go lines 2018-2021): the
timelock lies strictly after the given time. -/
def ExtendedLockedOutput.timeLockedNow (o : ExtendedLockedOutput) (nowis : Int) : Bool :=
  decide (nowis < o.timelock)

/-- ExtendedLockedOutput.UnlockAddressNow (input.go lines 2028-2037):
the primary address when no fallback is set; otherwise the fallback
address exactly when the given time lies strictly after the fallback
deadline. -/
def ExtendedLockedOutput.unlockAddressNow (o : ExtendedLockedOutput) (nowis : Int) : Address :=
  match o.fallbackAddress with
  | none => o.address
  | some fb => if decide (o.fallbackDeadline < nowis) then fb else o.address

/-- ExtendedLockedOutput.UnlockValid (input.go lines 1851-1883): a
timelocked output returns (false, nil) for every unlock block; otherwise
validation runs against the address returned by UnlockAddressNow, with
the same signature and alias branches as the signature-locked outputs. -/
def ExtendedLockedOutput.unlockValid (c : Crypto) (fuel : Nat)
    (o : ExtendedLockedOutput) (tx : Transaction) (unlockBlock : UnlockBlock)
    (inputs : List Output) : UnlockOutcome :=
  if o.timeLockedNow tx.timestamp then
    UnlockOutcome.ret false false
  else
    let addr := o.unlockAddressNow tx.timestamp
    match unlockBlock with
    | UnlockBlock.signature sig =>
      match signatureUnlockBlockAddressSignatureValid c sig addr tx.essenceBytes fuel with
      | none => UnlockOutcome.divergent
      | some b => UnlockOutcome.ret b false
    | UnlockBlock.aliasRef k =>
      if addr.addrType != AddressType.aliasAddr then
        UnlockOutcome.ret false true
      else
        match inputs.get? k with
        | none => UnlockOutcome.outOfRange
        | some (Output.aliasOut refAliasOutput) =>
          if !addr.equals (refAliasOutput.getAliasAddress c) then
            UnlockOutcome.ret false true
          else
            UnlockOutcome.ret (!refAliasOutput.hasToBeUnlockedForGovernanceUpdate c tx) false
        | some _ => UnlockOutcome.ret false true
    | UnlockBlock.reference _ => UnlockOutcome.ret false true

/-- Transaction.ID of transaction.go lines 124-154 (the copy cited by
the specification), as a function of the cached Id slot: the state is
the content of the cached slot, the result pairs the returned ID with
the content of the slot after the call.  When the slot is empty the
source serializes the transaction (the canonical serialization is the
abstract `serialize` argument), hashes the bytes with blake2b and
returns the hash after a round-trip through Deserialize, which on a
32-byte value is the identity; no assignment to the slot appears in
that copy of the method. -/
def transactionIDCode (c : Crypto) (serialize : Transaction → List Nat)
    (cached : Option (List Nat)) (t : Transaction) : List Nat × Option (List Nat) :=
  match cached with
  | some v => (v, some v)
  | none => (c.blake2b (serialize t), none)

/-- Modelled from the spec: section 4.6 and section 3 describe the
TransactionID as computed lazily with double-checked locking, the first
writer storing the hash in the cached slot under the write lock so that
subsequent calls return the cached value.  This intended behaviour is
kept for comparison with the embedded source above. -/
def transactionIDSpec (c : Crypto) (serialize : Transaction → List Nat)
    (cached : Option (List Nat)) (t : Transaction) : List Nat × Option (List Nat) :=
  match cached with
  | some v => (v, some v)
  | none =>
    let idBytes := c.blake2b (serialize t)
    (idBytes, some idBytes)

/-- Strict bytewise lexicographic order on byte lists:
`bytesLt a b = true` exactly when `bytes.Compare(a, b) < 0` in Go. -/
def bytesLt : List Nat → List Nat → Bool
  | [], [] => false
  | [], _ :: _ => true
  | _ :: _, [] => false
  | a :: as, b :: bs => if a < b then true else if b < a then false else bytesLt as bs

/-- The duplicate filter of NewOutputs and NewInputs (input.go lines
414-428 and 80-97): walk the list keeping the first element for each
distinct serialized form, `seen` being the set of serialized forms
already kept. -/
def dedupeByBytes (f : α → List Nat) : List α → List (List Nat) → List α
  | [], _ => []
  | x :: xs, seen =>
    if f x ∈ seen then
      dedupeByBytes f xs seen
    else
      x :: dedupeByBytes f xs (f x :: seen)

/-- The order used by the sorts of NewOutputs and NewInputs (input.go
lines 431-433 and 100-102): x at or before y when the serialized form of
x is not strictly greater, that is `bytes.Compare <= 0`. -/
def byteKeyLE (f : α → List Nat) (x y : α) : Prop :=
  bytesLt (f y) (f x) = false

instance (f : α → List Nat) : DecidableRel (byteKeyLE f) :=
  fun x y => instDecidableEqBool (bytesLt (f y) (f x)) false

/-- The sort of NewOutputs and NewInputs, ascending in the serialized
byte form.  sort.Slice is an unspecified comparison sort; it is embedded
as an insertion sort over the same order (on the deduplicated lists the
serialized forms are distinct, so every comparison sort agrees). -/
def sortByBytes (f : α → List Nat) (l : List α) : List α :=
  List.insertionSort (byteKeyLE f) l

/-- MinOutputCount and MaxOutputCount from input.go. -/
def minOutputCount : Nat := 1

/-- MaxOutputCount from input.go. -/
def maxOutputCount : Nat := 127

/-- The deterministic collection built by NewOutputs and NewInputs:
duplicates by serialized form removed, then sorted ascending by
serialized form.  `f` is the serialization of one element: for outputs
`output.Bytes()`, for inputs the registry serialization. -/
def newCollectionByBytes (f : α → List Nat) (l : List α) : List α :=
  sortByBytes f (dedupeByBytes f l [])

/-- NewOutputs (input.go lines 405-449): the canonical collection, with
the panics on fewer than MinOutputCount or more than MaxOutputCount
kept elements embedded as `none`. -/
def NewOutputs (f : α → List Nat) (l : List α) : Option (List α) :=
  let res := newCollectionByBytes f l
  if res.length < minOutputCount then
    none
  else if res.length > maxOutputCount then
    none
  else
    some res

/-- NewInputs (input.go lines 72-111): the canonical collection; this
constructor has no count check. -/
def NewInputs (f : α → List Nat) (l : List α) : List α :=
  newCollectionByBytes f l

/-- Little-endian encoding of a 64-bit unsigned integer as 8 bytes
(marshalutil.WriteUint64). -/
def u64le (n : Nat) : List Nat :=
  [n % 256, n / 256 % 256, n / 256 ^ 2 % 256, n / 256 ^ 3 % 256,
   n / 256 ^ 4 % 256, n / 256 ^ 5 % 256, n / 256 ^ 6 % 256, n / 256 ^ 7 % 256]

/-- The 1-byte tag of an address type (color.go AddressType constants). -/
def AddressType.tag : AddressType → Nat
  | AddressType.ed25519 => 0
  | AddressType.bls => 1
  | AddressType.aliasAddr => 2

/-- Address.Bytes from color.go: type tag then digest. -/
def Address.bytes (a : Address) : List Nat :=
  a.addrType.tag :: a.digest

/-- SigLockedSingleOutput.Bytes, via ObjectStorageValue (input.go lines
721-727): output type byte 0, the balance as a little-endian uint64,
then the address bytes.  The output ID is not serialized; it is only the
object storage key. -/
def SigLockedSingleOutput.bytes (s : SigLockedSingleOutput) : List Nat :=
  0 :: (u64le s.balance ++ s.address.bytes)

/-- The Opinion enum (spec section 6): Unknown, Like, Dislike. -/
inductive Opinion
  | unknown
  | like
  | dislike
deriving DecidableEq

/-- The vote object types (conflict or timestamp). -/
inductive VoteObjectType
  | conflict
  | timestampType
deriving DecidableEq

/-- Modelled from the spec: the package vote (vote.Context) is not part
of the sources, only its caller fpc.go is.  Following spec section 3, a
vote context holds the subject id and type, the ordered opinion sequence
with the initial opinion at index 0, the completed round counter, the
last observed liked proportion (-1 when unresolved) and the weight pair. -/
structure VoteContext where
  id : String
  objType : VoteObjectType
  opinions : List Opinion
  rounds : Nat
  proportionLiked : Rat
  ownWeight : Rat
  totalWeight : Rat
deriving DecidableEq

/-- Modelled from the spec: vote.NewContext creates a context with the
initial opinion at index 0, zero completed rounds and an unresolved
proportion. -/
def newVoteContext (id : String) (objType : VoteObjectType) (initOpn : Opinion) : VoteContext :=
  { id := id, objType := objType, opinions := [initOpn], rounds := 0,
    proportionLiked := -1, ownWeight := 0, totalWeight := 0 }

/-- Modelled from the spec: a context is new while it has not observed a
completed round yet (spec 4.7.2 forms opinions only for contexts with at
least one observed round). -/
def VoteContext.isNew (ctx : VoteContext) : Bool :=
  ctx.rounds == 0

/-- Modelled from the spec: the most recently formed opinion. -/
def VoteContext.lastOpinion (ctx : VoteContext) : Opinion :=
  (ctx.opinions.getLast?).getD Opinion.unknown

/-- Modelled from the spec: append a formed opinion to the sequence. -/
def VoteContext.addOpinion (ctx : VoteContext) (o : Opinion) : VoteContext :=
  { ctx with opinions := ctx.opinions ++ [o] }

/-- Modelled from the spec (4.7.2 step 3 and scenario 1): finalized when
the cooling-off plus finalization rounds have passed and the last
TotalRoundsFinalization opinions are all equal. -/
def VoteContext.isFinalized (coolingOffPeriod finalizationThreshold : Nat)
    (ctx : VoteContext) : Bool :=
  if ctx.rounds < coolingOffPeriod + finalizationThreshold then
    false
  else
    match ctx.opinions.drop (ctx.opinions.length - finalizationThreshold) with
    | [] => false
    | o :: rest => rest.all (· == o)

/-- Modelled from the spec: a context that has completed exactly its
first opinion-observing round (spec 4.7.2 selects the first-round
threshold band then). -/
def VoteContext.hadFirstRound (ctx : VoteContext) : Bool :=
  ctx.rounds == 1

/-- Modelled from the spec (4.7.2, 4.7.4): the context has reached the
trailing fixed-threshold rounds.  The source method is not part of the
sources; any total definition serves here since no claim depends on the
threshold schedule. -/
def VoteContext.hadFixedRound (coolingOffPeriod finalizationThreshold fixedThreshold : Nat)
    (ctx : VoteContext) : Bool :=
  ctx.rounds ≥ coolingOffPeriod + finalizationThreshold - fixedThreshold

/-- Modelled from the spec (section 6): the numeric form of an opinion
for the bias computation; Like is 1, Dislike is 0, Unknown is -1. -/
def convertOpinionToFloat64 (o : Opinion) : Rat :=
  match o with
  | Opinion.like => 1
  | Opinion.dislike => 0
  | Opinion.unknown => -1

/-- The FPC parameters used by the embedded functions (spec section 3,
Parameters). -/
structure FPCParameters where
  firstRoundLowerBoundThreshold : Rat
  firstRoundUpperBoundThreshold : Rat
  subsequentRoundsLowerBoundThreshold : Rat
  subsequentRoundsUpperBoundThreshold : Rat
  endingRoundsFixedThreshold : Rat
  totalRoundsCoolingOffPeriod : Nat
  totalRoundsFinalization : Nat
  totalRoundsFixedThreshold : Nat
  maxRoundsPerVoteContext : Nat
  querySampleSize : Nat
  maxQuerySampleSize : Nat
  minOpinionsReceived : Nat
deriving DecidableEq

/-- Modelled from the spec (4.7.2 step 2): the threshold drawn uniformly
within the round band, lower + rand * (upper - lower). -/
def randUniformThreshold (rand lowerBound upperBound : Rat) : Rat :=
  lowerBound + rand * (upperBound - lowerBound)

/-- FPC.setThreshold (fpc.go lines 392-407): subsequent-round bounds by
default, first-round bounds when the context had exactly its first
round, and the fixed ending threshold when it reached the fixed rounds. -/
def setThreshold (paras : FPCParameters) (ctx : VoteContext) : Rat × Rat :=
  let base :=
    if ctx.hadFirstRound then
      (paras.firstRoundLowerBoundThreshold, paras.firstRoundUpperBoundThreshold)
    else
      (paras.subsequentRoundsLowerBoundThreshold, paras.subsequentRoundsUpperBoundThreshold)
  if ctx.hadFixedRound paras.totalRoundsCoolingOffPeriod paras.totalRoundsFinalization
      paras.totalRoundsFixedThreshold then
    (paras.endingRoundsFixedThreshold, paras.endingRoundsFixedThreshold)
  else
    base

/-- FPC.biasTowardsOwnOpinion (fpc.go lines 410-437): -1 when the
weights are inconsistent (positive own mana, zero total), the raw
proportion when it is unresolved, when there is no mana, or when the
last opinion has no numeric form, and otherwise the mana-weighted
combination of the own opinion and the received proportion. -/
def biasTowardsOwnOpinion (ctx : VoteContext) : Rat :=
  let totalMana := ctx.totalWeight
  let ownMana := ctx.ownWeight
  if ownMana > 0 && totalMana == 0 then
    -1
  else
    let ownOpinion := convertOpinionToFloat64 ctx.lastOpinion
    if ctx.proportionLiked == -1 then
      ctx.proportionLiked
    else if ownMana == 0 || totalMana == 0 then
      ctx.proportionLiked
    else if ownOpinion < 0 then
      ctx.proportionLiked
    else
      ownMana / totalMana * ownOpinion + (1 - ownMana / totalMana) * ctx.proportionLiked

/-- The FPC state shared by Vote and Round (fpc.go lines 56-74): the
FIFO queue of pending contexts, the set of queued ids, the active
contexts (a Go map, embedded as an association list) and the
last-round-completed flag. -/
structure FPCState where
  queue : List VoteContext
  queueSet : List String
  ctxs : List (String × VoteContext)
  lastRoundCompletedSuccessfully : Bool
deriving DecidableEq

/-- The errors surfaced by Vote and the query phase. -/
inductive FPCErr
  | duplicateVote
  | opinionGiversUnavailable
  | noOpinionGivers
  | ownWeightUnavailable
deriving DecidableEq

/-- FPC.Vote (fpc.go lines 76-91): fails with the duplicate error when
the id is already queued or already has an active context; otherwise
pushes a fresh context to the back of the queue and records the id in
the queued set. -/
def fpcVote (st : FPCState) (id : String) (objType : VoteObjectType)
    (initOpn : Opinion) : Option FPCErr × FPCState :=
  if st.queueSet.contains id then
    (some FPCErr.duplicateVote, st)
  else if (st.ctxs.lookup id).isSome then
    (some FPCErr.duplicateVote, st)
  else
    (none,
     { st with
       queue := st.queue ++ [newVoteContext id objType initOpn],
       queueSet := st.queueSet ++ [id] })

/-- Insertion into the active-contexts map: overwrite an existing entry
for the id, append otherwise. -/
def ctxsInsert (ctxs : List (String × VoteContext)) (id : String)
    (ctx : VoteContext) : List (String × VoteContext) :=
  if (ctxs.lookup id).isSome then
    ctxs.map (fun p => if p.1 == id then (id, ctx) else p)
  else
    ctxs ++ [(id, ctx)]

/-- FPC.enqueue (fpc.go lines 161-175): drain the pending queue front to
back into the active contexts, removing each drained id from the queued
set. -/
def fpcEnqueue (st : FPCState) : FPCState :=
  { st with
    ctxs := st.queue.foldl (fun cs ctx => ctxsInsert cs ctx.id ctx) st.ctxs,
    queue := [],
    queueSet := st.queueSet.filter (fun id => !(st.queue.map VoteContext.id).contains id) }

/-- The per-context body of FPC.formOpinions (fpc.go lines 179-202):
skip new contexts and contexts with a negative biased proportion,
otherwise append Like when the biased proportion reaches the drawn
threshold and Dislike when it does not. -/
def formOpinionOne (paras : FPCParameters) (rand : Rat) (ctx : VoteContext) : VoteContext :=
  if ctx.isNew then
    ctx
  else
    let bounds := setThreshold paras ctx
    let biasedProportionLiked := biasTowardsOwnOpinion ctx
    if biasedProportionLiked < 0 then
      ctx
    else if biasedProportionLiked ≥ randUniformThreshold rand bounds.1 bounds.2 then
      ctx.addOpinion Opinion.like
    else
      ctx.addOpinion Opinion.dislike

/-- FPC.formOpinions applied to every active context. -/
def fpcFormOpinions (paras : FPCParameters) (rand : Rat) (st : FPCState) : FPCState :=
  { st with ctxs := st.ctxs.map (fun p => (p.1, formOpinionOne paras rand p.2)) }

/-- FPC.finalizeOpinions (fpc.go lines 205-219): remove every context
that is finalized and every context that reached the round ceiling (the
corresponding Finalized and Failed events are emitted for the removed
contexts). -/
def fpcFinalize (paras : FPCParameters) (st : FPCState) : FPCState :=
  { st with
    ctxs := st.ctxs.filter (fun p =>
      !(p.2.isFinalized paras.totalRoundsCoolingOffPeriod paras.totalRoundsFinalization)
      && !(p.2.rounds ≥ paras.maxRoundsPerVoteContext)) }

/-- The round counter increment of FPC.Round (fpc.go lines 128-130). -/
def fpcIncrementRounds (st : FPCState) : FPCState :=
  { st with ctxs := st.ctxs.map (fun p => (p.1, { p.2 with rounds := p.2.rounds + 1 })) }

/-- toleranceTotalMana from fpc.go. -/
def toleranceTotalMana : Rat := 1 / 1000

/-- An opinion giver, identified by its position in the provider list;
only its mana matters for sampling. -/
structure OpinionGiver where
  mana : Rat
deriving DecidableEq

/-- Increment the count at one giver position (the map increment
`opinionGiversToQuery[selected]++`, with the map embedded as one count
per giver position). -/
def incrementAt : List Nat → Nat → List Nat
  | [], _ => []
  | x :: xs, 0 => (x + 1) :: xs
  | x :: xs, n + 1 => x :: incrementAt xs n

/-- The number of entries of the selection map, that is positions with a
nonzero count. -/
def distinctCount (counts : List Nat) : Nat :=
  counts.countP (fun k => k != 0)

/-- The sum of the selection counts. -/
def sumCounts (counts : List Nat) : Nat :=
  counts.sum

/-- The running totals of ManaBasedSampling (fpc.go lines 448-454):
entry i is the sum of the mana of givers 0..i. -/
def cumulativeTotals : List Rat → Rat → List Rat
  | [], _ => []
  | m :: ms, acc => (acc + m) :: cumulativeTotals ms (acc + m)

/-- The sampling loop of ManaBasedSampling (fpc.go lines 465-475): up to
maxQuerySampleSize attempts while fewer than querySampleSize distinct
givers are selected; each attempt draws rnd in [0, totalMana) and
selects the first giver whose running total exceeds rnd.  The argument
i is the attempt index feeding the random draw, fuel the remaining
attempts. -/
def manaSampleLoop (totals : List Rat) (totalMana : Rat) (draws : Nat → Rat)
    (querySampleSize : Nat) : Nat → Nat → List Nat → List Nat
  | _, 0, counts => counts
  | i, fuel + 1, counts =>
    if distinctCount counts < querySampleSize then
      let rnd := draws i * totalMana
      let counts2 :=
        match totals.findIdx? (fun v => decide (rnd < v)) with
        | some idx => incrementAt counts idx
        | none => counts
      manaSampleLoop totals totalMana draws querySampleSize (i + 1) fuel counts2
    else
      counts

/-- The sampling loop of UniformSampling (fpc.go lines 486-489): exactly
querySampleSize draws with replacement, uniformly over the giver
positions.  rng.Intn yields an arbitrary position below the giver count;
the draw is reduced modulo the giver count to keep it in range. -/
def uniformSampleLoop (numGivers : Nat) (draws : Nat → Nat) :
    Nat → Nat → List Nat → List Nat
  | _, 0, counts => counts
  | i, k + 1, counts =>
    uniformSampleLoop numGivers draws (i + 1) k (incrementAt counts (draws i % numGivers))

/-- UniformSampling (fpc.go lines 483-491) on giver positions. -/
def uniformSampling (numGivers querySampleSize : Nat) (draws : Nat → Nat) : List Nat :=
  uniformSampleLoop numGivers draws 0 querySampleSize (List.replicate numGivers 0)

/-- ManaBasedSampling (fpc.go lines 447-481): fall back to uniform
sampling (with reported total 0) when the total consensus mana is within
the tolerance of zero, otherwise run the weighted sampling loop. -/
def manaBasedSampling (manas : List Rat) (maxQuerySampleSize querySampleSize : Nat)
    (draws : Nat → Rat) (uniformDraws : Nat → Nat) : List Nat × Rat :=
  let totalConsensusMana := manas.foldl (· + ·) 0
  if |totalConsensusMana| ≤ toleranceTotalMana then
    (uniformSampling manas.length querySampleSize uniformDraws, 0)
  else
    (manaSampleLoop (cumulativeTotals manas 0) totalConsensusMana draws querySampleSize
       0 maxQuerySampleSize (List.replicate manas.length 0),
     totalConsensusMana)

/-- The environment of one query phase: the provider result, the own
weight retriever result, the random draws of both sampling paths, and
per giver position the opinions returned by its Query call (`none` for a
transport error or timeout, whose contribution is dropped). -/
structure QueryEnv where
  opinionGivers : Except Unit (List OpinionGiver)
  ownWeight : Except Unit Rat
  manaDraws : Nat → Rat
  uniformDraws : Nat → Nat
  queryResult : Nat → Option (List Opinion)
deriving Inhabited

/-- FPC.voteContextIDs (fpc.go lines 377-389): the active context ids
split into conflict and timestamp ids. -/
def voteContextIDs (st : FPCState) : List String × List String :=
  ((st.ctxs.filter (fun p => p.2.objType == VoteObjectType.conflict)).map Prod.fst,
   (st.ctxs.filter (fun p => p.2.objType == VoteObjectType.timestampType)).map Prod.fst)

/-- The votes accumulated for the subject at position p of the id list
(fpc.go lines 273-336): every giver whose Query succeeded with the
expected number of opinions contributes its opinion at position p once
per time it was selected. -/
def votesForPos (counts : List Nat) (queryResult : Nat → Option (List Opinion))
    (numIDs : Nat) (p : Nat) : List Opinion :=
  (List.range counts.length).foldr
    (fun g acc =>
      match counts.get? g, queryResult g with
      | some k, some ops =>
        if k != 0 && ops.length == numIDs then
          List.replicate k (ops.getD p Opinion.unknown) ++ acc
        else
          acc
      | _, _ => acc)
    []

/-- The per-context tally of fpc.go lines 342-370: the weights are
always updated, the liked proportion only when the non-Unknown vote
count reaches MinOpinionsReceived. -/
def applyVotes (minOpinionsReceived : Nat) (ownMana totalMana : Rat)
    (votes : List Opinion) (ctx : VoteContext) : VoteContext :=
  let ctx1 := { ctx with ownWeight := ownMana, totalWeight := totalMana }
  let votedCount := (votes.filter (fun o => o != Opinion.unknown)).length
  let likedSum := (votes.filter (fun o => o == Opinion.like)).length
  if votedCount < minOpinionsReceived then
    ctx1
  else
    { ctx1 with proportionLiked := (likedSum : Rat) / (votedCount : Rat) }

/-- FPC.queryOpinions (fpc.go lines 222-375): nothing to do when there
are no active subjects; the provider error, the empty giver set and the
own-weight error abort the phase; otherwise the givers are sampled, the
sampled givers queried, and every active context is updated from the
tally. -/
def queryOpinions (env : QueryEnv) (paras : FPCParameters) (st : FPCState) :
    Except FPCErr FPCState :=
  let conflictIDs := (voteContextIDs st).1
  let timestampIDs := (voteContextIDs st).2
  if conflictIDs.length == 0 && timestampIDs.length == 0 then
    Except.ok st
  else
    match env.opinionGivers with
    | Except.error _ => Except.error FPCErr.opinionGiversUnavailable
    | Except.ok opinionGivers =>
      if opinionGivers.length == 0 then
        Except.error FPCErr.noOpinionGivers
      else
        let sampled := manaBasedSampling (opinionGivers.map OpinionGiver.mana)
          paras.maxQuerySampleSize paras.querySampleSize env.manaDraws env.uniformDraws
        match env.ownWeight with
        | Except.error _ => Except.error FPCErr.ownWeightUnavailable
        | Except.ok ownMana =>
          let totalMana := sampled.2 + ownMana
          let ids := conflictIDs ++ timestampIDs
          Except.ok
            { st with
              ctxs := st.ctxs.map (fun p =>
                (p.1,
                 applyVotes paras.minOpinionsReceived ownMana totalMana
                   (votesForPos sampled.1 env.queryResult ids.length (ids.findIdx (· == p.1)))
                   p.2)) }

/-- FPC.Round (fpc.go lines 112-158): enqueue the pending contexts, form
and finalize opinions only when the previous round completed
successfully, increment every round counter, then query; on query
success the flag is set to true and the round statistics are emitted,
on failure the error is returned (the source contains no assignment
setting the flag to false). -/
def fpcRound (env : QueryEnv) (rand : Rat) (paras : FPCParameters) (st : FPCState) :
    Option FPCErr × FPCState :=
  let st1 := fpcEnqueue st
  let st2 :=
    if st1.lastRoundCompletedSuccessfully then
      fpcFinalize paras (fpcFormOpinions paras rand st1)
    else
      st1
  let st3 := fpcIncrementRounds st2
  match queryOpinions env paras st3 with
  | Except.ok st4 => (none, { st4 with lastRoundCompletedSuccessfully := true })
  | Except.error e => (some e, st3)

/-- The round pipeline with the opinion-forming and finalization steps
left out: what FPC.Round executes when the previous round did not
complete successfully.  Used to state that a round skips those steps. -/
def fpcRoundSkippingOpinionForming (env : QueryEnv) (paras : FPCParameters)
    (st : FPCState) : Option FPCErr × FPCState :=
  let st3 := fpcIncrementRounds (fpcEnqueue st)
  match queryOpinions env paras st3 with
  | Except.ok st4 => (none, { st4 with lastRoundCompletedSuccessfully := true })
  | Except.error e => (some e, st3)

/-- The ascending order on serialized byte forms, as a relation on the
byte lists themselves. -/
def bytesLE (a b : List Nat) : Prop :=
  bytesLt b a = false

/-- The coupling invariant of the admission queue: the queued-ids set
holds exactly the ids of the pending queue, in order.  It holds in every
reachable state: Vote appends to both and enqueue drains both. -/
def queueCoupled (st : FPCState) : Prop :=
  st.queueSet = st.queue.map VoteContext.id

/-- An id is tracked while it sits in the pending queue or has an active
vote context; this is the sense in which it is unfinalized. -/
def trackedIn (st : FPCState) (id : String) : Prop :=
  st.queueSet.contains id = true ∨ (st.ctxs.lookup id).isSome = true

/-! ### Concrete fixtures used by witnesses and counterexamples -/

/-- A concrete crypto record; every theorem about control flow holds for
all crypto records, the fixtures just need one to evaluate. -/
def cryptoTrivial : Crypto :=
  { blake2b := fun l => l, ed25519Verify := fun _ _ _ => true, blsVerify := fun _ _ => true }

/-- An alias output whose state and governing addresses are alias
addresses, used by the out-of-range access fixtures. -/
def c9alias : AliasOutput :=
  { outputID := [1], balances := [], aliasAddressDigest := [7],
    stateAddress := { addrType := AddressType.aliasAddr, digest := [8] },
    stateIndex := 0, stateData := [], governanceMetadata := [], immutableData := [9],
    isGovernanceUpdate := false,
    governingAddress := some { addrType := AddressType.aliasAddr, digest := [8] },
    isOrigin := false, isDelegated := false, delegationTimelock := 0 }

/-- The referenced alias output sitting at input index 0. -/
def c9ref : AliasOutput :=
  { c9alias with
    aliasAddressDigest := [8]
    governingAddress := none
    stateAddress := { addrType := AddressType.ed25519, digest := [1] } }

/-- A transaction with no outputs. -/
def c9tx : Transaction :=
  { essenceOutputs := [], essenceBytes := [], timestamp := 0 }

/-- A single-element inputs slice; index 1 equals its length. -/
def c9inputs : List Output :=
  [Output.aliasOut c9ref]

/-- A signature-locked output guarded by an alias address, so an alias
unlock block reaches the inputs indexing. -/
def c9sig : SigLockedSingleOutput :=
  { outputID := [], balance := 5,
    address := { addrType := AddressType.aliasAddr, digest := [7] } }

/-- The extended output of the timelock boundary fixture: timelock 5. -/
def c8out : ExtendedLockedOutput :=
  { outputID := [], balances := [], address := { addrType := AddressType.aliasAddr, digest := [7] },
    fallbackAddress := none, fallbackDeadline := 0, timelock := 5, payload := [] }

/-- The alias output referenced by the unlock of the boundary fixture. -/
def c8ref : AliasOutput :=
  { c9ref with aliasAddressDigest := [7] }

/-- The chained successor of the referenced alias (a state update), so
the alias reference is a valid unlock. -/
def c8chained : AliasOutput :=
  { c8ref with isGovernanceUpdate := false, stateIndex := 1 }

/-- A transaction whose timestamp equals the timelock of c8out. -/
def c8tx : Transaction :=
  { essenceOutputs := [Output.aliasOut c8chained], essenceBytes := [], timestamp := 5 }

/-- The inputs slice of the boundary fixture. -/
def c8inputs : List Output :=
  [Output.aliasOut c8ref]

/-- An extended output with both a timelock and fallback options, for
the witness of the amended timelock claim. -/
def c8wOut : ExtendedLockedOutput :=
  { c8out with
    address := { addrType := AddressType.ed25519, digest := [3] }
    fallbackAddress := some { addrType := AddressType.ed25519, digest := [4] }
    fallbackDeadline := 7 }

/-- The spent alias output of the transition-preservation witness; its
governing address is the alias address of c4ref. -/
def c4a : AliasOutput :=
  { c9alias with immutableData := [9] }

/-- The chained successor of c4a: a governance update that changes
nothing else. -/
def c4chained : AliasOutput :=
  { c4a with isGovernanceUpdate := true }

/-- The alias output referenced by the governance unlock of c4a. -/
def c4ref : AliasOutput :=
  { c9alias with
    aliasAddressDigest := [8]
    governingAddress := none
    stateAddress := { addrType := AddressType.ed25519, digest := [1] } }

/-- The chained successor of c4ref: a state update, so c4ref is itself
unlocked for a state transition. -/
def c4refChained : AliasOutput :=
  { c4ref with isGovernanceUpdate := false, stateIndex := 1 }

/-- The transaction of the transition-preservation witness. -/
def c4tx : Transaction :=
  { essenceOutputs := [Output.aliasOut c4chained, Output.aliasOut c4refChained],
    essenceBytes := [], timestamp := 0 }

/-- The inputs slice of the transition-preservation witness. -/
def c4inputs : List Output :=
  [Output.aliasOut c4ref]

/-- Two signature-locked outputs that differ only in their output ID:
their serialized forms coincide since the ID is not serialized. -/
def c6oA : SigLockedSingleOutput :=
  { outputID := [1], balance := 5,
    address := { addrType := AddressType.ed25519, digest := [3] } }

/-- The twin of c6oA with a different output ID. -/
def c6oB : SigLockedSingleOutput :=
  { outputID := [2], balance := 5,
    address := { addrType := AddressType.ed25519, digest := [3] } }

/-- FPC parameters for the round fixtures. -/
def c3paras : FPCParameters :=
  { firstRoundLowerBoundThreshold := 0, firstRoundUpperBoundThreshold := 0,
    subsequentRoundsLowerBoundThreshold := 0, subsequentRoundsUpperBoundThreshold := 0,
    endingRoundsFixedThreshold := 0, totalRoundsCoolingOffPeriod := 0,
    totalRoundsFinalization := 2, totalRoundsFixedThreshold := 0,
    maxRoundsPerVoteContext := 10, querySampleSize := 2, maxQuerySampleSize := 4,
    minOpinionsReceived := 1 }

/-- A query environment whose opinion-giver provider errors. -/
def c3envBad : QueryEnv :=
  { opinionGivers := Except.error (), ownWeight := Except.error (),
    manaDraws := fun _ => 0, uniformDraws := fun _ => 0, queryResult := fun _ => none }

/-- The initial FPC state. -/
def c3start : FPCState :=
  { queue := [], queueSet := [], ctxs := [], lastRoundCompletedSuccessfully := false }

/-- The state after one successful round on the empty instance: with no
active subjects the query phase succeeds trivially, so the flag is set. -/
def c3afterSuccess : FPCState :=
  (fpcRound c3envBad 0 c3paras c3start).2

/-- The state after additionally admitting the subject a. -/
def c3voted : FPCState :=
  (fpcVote c3afterSuccess "a" VoteObjectType.conflict Opinion.like).2

/-- A state with one active context and the flag still false, for the
witness of the amended round-failure claim. -/
def c3flagFalse : FPCState :=
  { queue := [], queueSet := [],
    ctxs := [("a", newVoteContext "a" VoteObjectType.conflict Opinion.like)],
    lastRoundCompletedSuccessfully := false }

/-- A duplicate-admission state: the id a is already queued. -/
def c10state : FPCState :=
  { queue := [newVoteContext "a" VoteObjectType.conflict Opinion.like],
    queueSet := ["a"], ctxs := [], lastRoundCompletedSuccessfully := false }

/-- An empty FPC state for the admission witness. -/
def c5empty : FPCState :=
  { queue := [], queueSet := [], ctxs := [], lastRoundCompletedSuccessfully := false }

/-- The state after one successful admission of the id a. -/
def c5voted : FPCState :=
  (fpcVote c5empty "a" VoteObjectType.conflict Opinion.like).2

/-! ### Supporting lemmas -/

/-- The self-recursive unlock block method consumes fuel without ever
producing a value. -/
theorem sigUnlockFuelNone (c : Crypto) (sig : Signature) (address : Address)
    (data : List Nat) : ∀ fuel,
    signatureUnlockBlockAddressSignatureValid c sig address data fuel = none := by
  intro fuel
  induction fuel with
  | zero => rfl
  | succ k ih =>
    simpa [signatureUnlockBlockAddressSignatureValid] using ih

/-! ### Claim theorems -/

/-- C1: the source of SignatureUnlockBlock.AddressSignatureValid
recurses on itself unconditionally, so SigLockedSingleOutput.UnlockValid
applied to a SignatureUnlockBlock never terminates and in particular
never returns the result of checking the contained signature against the
address over the essence bytes; the claim that the call always
terminates and returns the signature-validation verdict is contradicted
by the code (the spec itself notes the self-recursion as a bug, the
intended delegation being signatureUnlockBlockAddressSignatureValidSpec). -/
theorem sigLockedSingleOutput_signature_unlock_diverges (c : Crypto) (sig : Signature)
    (address : Address) (data : List Nat) (fuel : Nat) (s : SigLockedSingleOutput)
    (tx : Transaction) (inputs : List Output) :
    signatureUnlockBlockAddressSignatureValid c sig address data fuel = none ∧
    s.unlockValid c fuel tx (UnlockBlock.signature sig) inputs = UnlockOutcome.divergent ∧
    signatureUnlockBlockAddressSignatureValidSpec c sig address data
      = sig.addressSignatureValid c address data := by
  refine ⟨sigUnlockFuelNone c sig address data fuel, ?_, rfl⟩
  simp [SigLockedSingleOutput.unlockValid, sigUnlockFuelNone]

/-- C2: the first call to the cited copy of Transaction.ID computes
blake2b of the canonical serialization and returns it, but never writes
the cached Id slot, so the slot stays empty and every later call
recomputes; the spec-modelled double-checked variant stores the hash. -/
theorem transactionID_value_but_not_cached (c : Crypto)
    (serialize : Transaction → List Nat) (t : Transaction) :
    (transactionIDCode c serialize none t).1 = c.blake2b (serialize t) ∧
    (transactionIDCode c serialize none t).2 = none ∧
    (transactionIDSpec c serialize none t).2 = some (c.blake2b (serialize t)) :=
  ⟨rfl, rfl, rfl⟩

/-- C9: the alias dereference helpers guard the referenced index with a
strict greater-than against the inputs length, so an index equal to the
length passes the guard and the slice access panics, and
SigLockedSingleOutput.UnlockValid indexes the inputs slice with no guard
at all; at index 1 into a one-element inputs slice all three embedded
functions hit the out-of-range access instead of returning an error. -/
theorem aliasIndex_out_of_range_access :
    c9inputs.length = 1 ∧
    c9alias.unlockedGovernanceTransitionByAliasIndex cryptoTrivial c9tx 1 c9inputs = none ∧
    c9alias.unlockedStateTransitionByAliasIndex cryptoTrivial c9tx 1 c9inputs = none ∧
    c9sig.unlockValid cryptoTrivial 0 c9tx (UnlockBlock.aliasRef 1) c9inputs
      = UnlockOutcome.outOfRange := by
  decide

/-- C10: whenever Vote returns the duplicate error it leaves the FPC
state unchanged: nothing is appended to the pending queue, the queued-id
set is untouched and the active contexts are not modified. -/
theorem fpcVote_duplicate_leaves_state_unchanged (st : FPCState) (id : String)
    (objType : VoteObjectType) (initOpn : Opinion) (e : FPCErr)
    (h : (fpcVote st id objType initOpn).1 = some e) :
    (fpcVote st id objType initOpn).2 = st := by
  by_cases h1 : id ∈ st.queueSet
  · simp [fpcVote, h1]
  · by_cases h2 : (st.ctxs.lookup id).isSome
    · simp [fpcVote, h1, h2]
    · exfalso
      simp [fpcVote, h1, h2] at h

/-- Witness for C10 at a concrete duplicate admission. -/
theorem fpcVote_duplicate_leaves_state_unchanged_witness :
    (fpcVote c10state "a" VoteObjectType.conflict Opinion.like).1
      = some FPCErr.duplicateVote ∧
    (fpcVote c10state "a" VoteObjectType.conflict Opinion.like).2 = c10state :=
  ⟨by decide,
   fpcVote_duplicate_leaves_state_unchanged c10state "a" VoteObjectType.conflict
     Opinion.like FPCErr.duplicateVote (by decide)⟩

/-- Counterexample to C8 as stated: at a transaction timestamp exactly
equal to the timelock the timestamp is not strictly later than the
timelock, yet the output is not considered timelocked
(TimeLockedNow uses strict After) and a valid alias unlock returns
(true, nil) rather than false. -/
theorem extendedLocked_boundary_counterexample :
    c8tx.timestamp = c8out.timelock ∧
    ¬ c8out.timelock < c8tx.timestamp ∧
    c8out.unlockValid cryptoTrivial 0 c8tx (UnlockBlock.aliasRef 0) c8inputs
      = UnlockOutcome.ret true false := by
  decide

/-- C8 amended: UnlockValid returns (false, nil) for every unlock block
whenever the transaction timestamp is strictly earlier than the timelock
(the output is unlockable from the timelock instant on, not only
strictly after it); and when a fallback address is set, the address the
unlock is validated against is the fallback address exactly when the
timestamp is strictly later than the fallback deadline, and the primary
address otherwise. -/
theorem extendedLocked_timelock_and_fallback (c : Crypto) (fuel : Nat)
    (o : ExtendedLockedOutput) (tx : Transaction) (blk : UnlockBlock)
    (inputs : List Output) (fb : Address) :
    (tx.timestamp < o.timelock →
      o.unlockValid c fuel tx blk inputs = UnlockOutcome.ret false false) ∧
    (o.fallbackAddress = some fb →
      (o.fallbackDeadline < tx.timestamp → o.unlockAddressNow tx.timestamp = fb) ∧
      (¬ o.fallbackDeadline < tx.timestamp → o.unlockAddressNow tx.timestamp = o.address)) := by
  constructor
  · intro h
    simp [ExtendedLockedOutput.unlockValid, ExtendedLockedOutput.timeLockedNow, h]
  · intro hfb
    constructor
    · intro h
      simp [ExtendedLockedOutput.unlockAddressNow, hfb, h]
    · intro h
      simp [ExtendedLockedOutput.unlockAddressNow, hfb, h]

/-- Witness for the amended C8: a strictly earlier timestamp is blocked
for an arbitrary unlock block, a timestamp past the fallback deadline is
validated against the fallback address and one before it against the
primary address. -/
theorem extendedLocked_timelock_and_fallback_witness :
    c8wOut.unlockValid cryptoTrivial 0
      { essenceOutputs := [], essenceBytes := [], timestamp := 3 }
      (UnlockBlock.reference 0) [] = UnlockOutcome.ret false false ∧
    c8wOut.unlockAddressNow 10 = { addrType := AddressType.ed25519, digest := [4] } ∧
    c8wOut.unlockAddressNow 6 = c8wOut.address := by
  refine ⟨?_, ?_, ?_⟩
  · exact (extendedLocked_timelock_and_fallback cryptoTrivial 0 c8wOut
      { essenceOutputs := [], essenceBytes := [], timestamp := 3 }
      (UnlockBlock.reference 0) [] { addrType := AddressType.ed25519, digest := [4] }).1
      (by decide)
  · exact ((extendedLocked_timelock_and_fallback cryptoTrivial 0 c8wOut
      { essenceOutputs := [], essenceBytes := [], timestamp := 10 }
      (UnlockBlock.reference 0) [] { addrType := AddressType.ed25519, digest := [4] }).2
      (by decide)).1 (by decide)
  · exact ((extendedLocked_timelock_and_fallback cryptoTrivial 0 c8wOut
      { essenceOutputs := [], essenceBytes := [], timestamp := 6 }
      (UnlockBlock.reference 0) [] { addrType := AddressType.ed25519, digest := [4] }).2
      (by decide)).2 (by decide)

/-- Counterexample to C3 as stated: after one successful round (the
empty instance: a query phase with no subjects succeeds) the flag is
true; a following round whose opinion-giver provider errors returns the
error, yet the flag is still true afterwards, because the source only
ever assigns true to lastRoundCompletedSuccessfully and never resets it;
hence the round after the failure does not skip opinion forming. -/
theorem fpcRound_failure_flag_counterexample :
    c3voted.lastRoundCompletedSuccessfully = true ∧
    (fpcRound c3envBad 0 c3paras c3voted).1 = some FPCErr.opinionGiversUnavailable ∧
    (fpcRound c3envBad 0 c3paras c3voted).2.lastRoundCompletedSuccessfully = true := by
  decide

/-- C3 amended: a Round call whose query phase fails returns the error
and leaves lastRoundCompletedSuccessfully unchanged (the code never
resets it to false); consequently the immediately following Round skips
the form-opinions and finalize steps exactly when no earlier round
completed successfully, and in particular a failing round starting from
a false flag leaves the whole round pipeline equal to the variant
without the opinion-forming and finalize steps. -/
theorem fpcRound_failure_keeps_flag (env : QueryEnv) (rand : Rat)
    (paras : FPCParameters) (st : FPCState) (e : FPCErr)
    (h : (fpcRound env rand paras st).1 = some e) :
    (fpcRound env rand paras st).2.lastRoundCompletedSuccessfully
      = st.lastRoundCompletedSuccessfully ∧
    (st.lastRoundCompletedSuccessfully = false →
      fpcRound env rand paras st = fpcRoundSkippingOpinionForming env paras st) := by
  have hE : (fpcEnqueue st).lastRoundCompletedSuccessfully
      = st.lastRoundCompletedSuccessfully := rfl
  simp only [fpcRound] at h ⊢
  simp only [fpcRoundSkippingOpinionForming]
  rw [hE] at h ⊢
  by_cases hflag : st.lastRoundCompletedSuccessfully = true
  · rw [if_pos hflag] at h ⊢
    cases hq : queryOpinions env paras
        (fpcIncrementRounds (fpcFinalize paras (fpcFormOpinions paras rand (fpcEnqueue st)))) with
    | ok st4 =>
      rw [hq] at h
      exact absurd h (by simp)
    | error e2 =>
      refine ⟨rfl, ?_⟩
      intro hff
      rw [hflag] at hff
      cases hff
  · rw [if_neg hflag] at h ⊢
    cases hq : queryOpinions env paras (fpcIncrementRounds (fpcEnqueue st)) with
    | ok st4 =>
      rw [hq] at h
      exact absurd h (by simp)
    | error e2 =>
      exact ⟨rfl, fun _ => rfl⟩

/-- Witness for the amended C3: a failing round on a state with one
active context and a false flag returns the provider error, keeps the
flag and equals the pipeline without opinion forming. -/
theorem fpcRound_failure_keeps_flag_witness :
    (fpcRound c3envBad 0 c3paras c3flagFalse).1 = some FPCErr.opinionGiversUnavailable ∧
    (fpcRound c3envBad 0 c3paras c3flagFalse).2.lastRoundCompletedSuccessfully
      = c3flagFalse.lastRoundCompletedSuccessfully ∧
    fpcRound c3envBad 0 c3paras c3flagFalse
      = fpcRoundSkippingOpinionForming c3envBad c3paras c3flagFalse := by
  have h := fpcRound_failure_keeps_flag c3envBad 0 c3paras c3flagFalse
    FPCErr.opinionGiversUnavailable (by decide)
  exact ⟨by decide, h.1, h.2 (by decide)⟩

/-- incrementAt keeps the length of the count list. -/
theorem incrementAt_length (counts : List Nat) (idx : Nat) :
    (incrementAt counts idx).length = counts.length := by
  induction counts generalizing idx with
  | nil => rfl
  | cons x xs ih =>
    cases idx with
    | zero => rfl
    | succ n => simp [incrementAt, ih]

/-- incrementAt at a position inside the list raises the sum by one. -/
theorem incrementAt_sum_of_lt (counts : List Nat) (idx : Nat)
    (h : idx < counts.length) : (incrementAt counts idx).sum = counts.sum + 1 := by
  induction counts generalizing idx with
  | nil => simp at h
  | cons x xs ih =>
    cases idx with
    | zero => simp [incrementAt]; omega
    | succ n =>
      have := ih n (by simpa using h)
      simp [incrementAt, this]
      omega

/-- incrementAt raises the sum by at most one. -/
theorem incrementAt_sum_le (counts : List Nat) (idx : Nat) :
    (incrementAt counts idx).sum ≤ counts.sum + 1 := by
  induction counts generalizing idx with
  | nil => simp [incrementAt]
  | cons x xs ih =>
    cases idx with
    | zero =>
      simp only [incrementAt, List.sum_cons]
      omega
    | succ n =>
      have := ih n
      simp only [incrementAt, List.sum_cons]
      omega

/-- incrementAt adds at most one nonzero position. -/
theorem incrementAt_distinct_le (counts : List Nat) (idx : Nat) :
    distinctCount (incrementAt counts idx) ≤ distinctCount counts + 1 := by
  induction counts generalizing idx with
  | nil => simp [incrementAt, distinctCount]
  | cons x xs ih =>
    cases idx with
    | zero =>
      simp only [incrementAt, distinctCount, List.countP_cons]
      split <;> split <;> omega
    | succ n =>
      have hr := ih n
      simp only [distinctCount] at hr
      simp only [incrementAt, distinctCount, List.countP_cons]
      split <;> omega

/-- The all-zero count list has no selected giver. -/
theorem distinctCount_replicate_zero (n : Nat) :
    distinctCount (List.replicate n 0) = 0 := by
  induction n with
  | zero => rfl
  | succ k ih =>
    simp only [distinctCount, List.replicate_succ, List.countP_cons] at ih ⊢
    simp [ih]

/-- The uniform sampling loop keeps the length of the count list. -/
theorem uniformSampleLoop_length (numGivers : Nat) (draws : Nat → Nat) :
    ∀ k i counts, (uniformSampleLoop numGivers draws i k counts).length = counts.length := by
  intro k
  induction k with
  | zero => intro i counts; rfl
  | succ m ih =>
    intro i counts
    simp [uniformSampleLoop, ih, incrementAt_length]

/-- Each pass of the uniform sampling loop adds exactly one selection. -/
theorem uniformSampleLoop_sum (numGivers : Nat) (draws : Nat → Nat)
    (h0 : 0 < numGivers) :
    ∀ k i counts, counts.length = numGivers →
      (uniformSampleLoop numGivers draws i k counts).sum = counts.sum + k := by
  intro k
  induction k with
  | zero => intro i counts _; rfl
  | succ m ih =>
    intro i counts hlen
    have hidx : draws i % numGivers < counts.length := by
      rw [hlen]; exact Nat.mod_lt _ h0
    have hrec := ih (i + 1) (incrementAt counts (draws i % numGivers))
      (by rw [incrementAt_length, hlen])
    simp only [uniformSampleLoop] at hrec ⊢
    rw [hrec, incrementAt_sum_of_lt counts _ hidx]
    omega

/-- UniformSampling over a non-empty giver pool distributes exactly
querySampleSize selections. -/
theorem uniformSampling_sum (numGivers querySampleSize : Nat) (draws : Nat → Nat)
    (h0 : 0 < numGivers) :
    (uniformSampling numGivers querySampleSize draws).sum = querySampleSize := by
  unfold uniformSampling
  rw [uniformSampleLoop_sum numGivers draws h0 querySampleSize 0 _ (by simp)]
  simp

/-- Every attempt of the mana sampling loop adds at most one selection. -/
theorem manaSampleLoop_sum_le (totals : List Rat) (totalMana : Rat)
    (draws : Nat → Rat) (querySampleSize : Nat) :
    ∀ fuel i counts,
      (manaSampleLoop totals totalMana draws querySampleSize i fuel counts).sum
        ≤ counts.sum + fuel := by
  intro fuel
  induction fuel with
  | zero => intro i counts; simp [manaSampleLoop]
  | succ m ih =>
    intro i counts
    by_cases hc : distinctCount counts < querySampleSize
    · cases hidx : totals.findIdx? (fun v => decide (draws i * totalMana < v)) with
      | none =>
        have := ih (i + 1) counts
        simp only [manaSampleLoop, if_pos hc, hidx]
        omega
      | some idx =>
        have hstep := incrementAt_sum_le counts idx
        have := ih (i + 1) (incrementAt counts idx)
        simp only [manaSampleLoop, if_pos hc, hidx]
        omega
    · simp only [manaSampleLoop, if_neg hc]
      omega

/-- The mana sampling loop never selects more than querySampleSize
distinct givers. -/
theorem manaSampleLoop_distinct_le (totals : List Rat) (totalMana : Rat)
    (draws : Nat → Rat) (querySampleSize : Nat) :
    ∀ fuel i counts, distinctCount counts ≤ querySampleSize →
      distinctCount (manaSampleLoop totals totalMana draws querySampleSize i fuel counts)
        ≤ querySampleSize := by
  intro fuel
  induction fuel with
  | zero => intro i counts h; simpa [manaSampleLoop] using h
  | succ m ih =>
    intro i counts h
    by_cases hc : distinctCount counts < querySampleSize
    · cases hidx : totals.findIdx? (fun v => decide (draws i * totalMana < v)) with
      | none =>
        simp only [manaSampleLoop, if_pos hc, hidx]
        exact ih (i + 1) counts h
      | some idx =>
        have hstep := incrementAt_distinct_le counts idx
        simp only [manaSampleLoop, if_pos hc, hidx]
        exact ih (i + 1) (incrementAt counts idx) (by omega)
    · simpa [manaSampleLoop, if_neg hc] using h

/-- Counterexample to C7 as stated: with two givers of mana 1 each,
QuerySampleSize 2 and MaxQuerySampleSize 3, random draws that always hit
the first giver make the loop attempt 3 times (the distinct count never
reaches 2), so the selection counts sum to 3, which is neither equal to
QuerySampleSize nor smaller, although the pool is not smaller than
QuerySampleSize. -/
theorem manaSampling_total_counterexample :
    (manaBasedSampling [1, 1] 3 2 (fun _ => 0) (fun _ => 0)).1 = [3, 0] ∧
    sumCounts (manaBasedSampling [1, 1] 3 2 (fun _ => 0) (fun _ => 0)).1 = 3 ∧
    ¬ sumCounts (manaBasedSampling [1, 1] 3 2 (fun _ => 0) (fun _ => 0)).1 ≤ 2 ∧
    ¬ ([1, 1] : List Rat).length < 2 := by
  have htot : ([1, 1] : List Rat).foldl (· + ·) 0 = 2 := by norm_num
  have htol : ¬ |(2 : Rat)| ≤ toleranceTotalMana := by norm_num [toleranceTotalMana]
  have hcum : cumulativeTotals [1, 1] 0 = [1, 2] := by norm_num [cumulativeTotals]
  have h1 : (manaBasedSampling [1, 1] 3 2 (fun _ => 0) (fun _ => 0)).1 = [3, 0] := by
    simp only [manaBasedSampling, htot, hcum]
    rw [if_neg htol]
    norm_num [manaSampleLoop, distinctCount, incrementAt, List.countP, List.countP.go]
    decide
  refine ⟨h1, ?_, ?_, by decide⟩
  · rw [h1]; decide
  · rw [h1]; decide

/-- C7 amended: UniformSampling always distributes exactly
QuerySampleSize selections over a non-empty pool (the mana fallback path
included); on the mana-weighted path each attempt adds one selection to
a single giver, the loop stops once QuerySampleSize distinct givers are
selected or MaxQuerySampleSize attempts are spent, so the number of
distinct selected givers is at most QuerySampleSize while the sum of the
selection counts is only bounded by MaxQuerySampleSize and can exceed
QuerySampleSize when draws repeat. -/
theorem sampling_selection_totals (manas : List Rat) (maxQuerySampleSize querySampleSize : Nat)
    (dM : Nat → Rat) (dU : Nat → Nat) (hne : 0 < manas.length) :
    sumCounts (uniformSampling manas.length querySampleSize dU) = querySampleSize ∧
    (|manas.foldl (· + ·) 0| ≤ toleranceTotalMana →
      sumCounts (manaBasedSampling manas maxQuerySampleSize querySampleSize dM dU).1
        = querySampleSize) ∧
    (¬ |manas.foldl (· + ·) 0| ≤ toleranceTotalMana →
      sumCounts (manaBasedSampling manas maxQuerySampleSize querySampleSize dM dU).1
          ≤ maxQuerySampleSize ∧
      distinctCount (manaBasedSampling manas maxQuerySampleSize querySampleSize dM dU).1
          ≤ querySampleSize) := by
  refine ⟨uniformSampling_sum _ _ _ hne, ?_, ?_⟩
  · intro htol
    simp only [manaBasedSampling, sumCounts]
    rw [if_pos htol]
    exact uniformSampling_sum _ _ _ hne
  · intro htol
    simp only [manaBasedSampling, sumCounts]
    rw [if_neg htol]
    constructor
    · have := manaSampleLoop_sum_le (cumulativeTotals manas 0) (manas.foldl (· + ·) 0)
        dM querySampleSize maxQuerySampleSize 0 (List.replicate manas.length 0)
      simpa using this
    · exact manaSampleLoop_distinct_le _ _ _ _ _ _ _
        (by simp [distinctCount_replicate_zero])

/-- Witness for the amended C7 at the concrete counterexample input. -/
theorem sampling_selection_totals_witness :
    sumCounts (uniformSampling 2 2 (fun _ => 0)) = 2 ∧
    sumCounts (manaBasedSampling [1, 1] 3 2 (fun _ => 0) (fun _ => 0)).1 ≤ 3 ∧
    distinctCount (manaBasedSampling [1, 1] 3 2 (fun _ => 0) (fun _ => 0)).1 ≤ 2 := by
  have htol : ¬ |([1, 1] : List Rat).foldl (· + ·) 0| ≤ toleranceTotalMana := by
    norm_num [toleranceTotalMana]
  have h := sampling_selection_totals [1, 1] 3 2 (fun _ => 0) (fun _ => 0) (by decide)
  exact ⟨h.1, (h.2.2 htol).1, (h.2.2 htol).2⟩

/-- The first two checks of validateTransition: when it reports no
error, the alias address and the immutable data agree between the spent
alias output and its chained successor. -/
theorem validateTransition_none_preserves (c : Crypto) (a chained : AliasOutput)
    (ts : Int) (h : a.validateTransition c chained ts = none) :
    (a.getAliasAddress c).equals (chained.getAliasAddress c) = true ∧
    a.immutableData = chained.immutableData := by
  cases hb : (a.getAliasAddress c).equals (chained.getAliasAddress c) with
  | false =>
    exfalso
    simp [AliasOutput.validateTransition, hb] at h
  | true =>
    cases him : a.immutableData == chained.immutableData with
    | false =>
      exfalso
      simp [AliasOutput.validateTransition, hb, him, bne] at h
    | true =>
      exact ⟨rfl, by simpa using him⟩

/-- An accepted alias unlock with a present chained successor passed
validateTransition: signature unlocks never return at all, and the alias
reference branch returns (true, nil) only after validateTransition
reported no error. -/
theorem aliasUnlockValid_true_validates (c : Crypto) (fuel : Nat)
    (a chained : AliasOutput) (tx : Transaction) (blk : UnlockBlock)
    (inputs : List Output)
    (hfind : a.findChainedOutputAndCheckFork c tx = Except.ok (some chained))
    (h : a.unlockValid c fuel tx blk inputs = UnlockOutcome.ret true false) :
    a.validateTransition c chained tx.timestamp = none := by
  cases blk with
  | signature sig =>
    exfalso
    simp [AliasOutput.unlockValid, hfind, sigUnlockFuelNone] at h
  | reference idx =>
    exfalso
    simp [AliasOutput.unlockValid, hfind] at h
  | aliasRef k =>
    by_cases hg : chained.isGovernanceUpdate
    · cases hr : a.unlockedGovernanceTransitionByAliasIndex c tx k inputs with
      | none =>
        exfalso
        simp [AliasOutput.unlockValid, hfind, hg, hr] at h
      | some pr =>
        cases pr with
        | mk valid isErr =>
          cases valid with
          | false =>
            exfalso
            simp [AliasOutput.unlockValid, hfind, hg, hr] at h
          | true =>
            cases hv : a.validateTransition c chained tx.timestamp with
            | none => rfl
            | some err =>
              exfalso
              simp [AliasOutput.unlockValid, hfind, hg, hr, hv] at h
    · cases hr : a.unlockedStateTransitionByAliasIndex c tx k inputs with
      | none =>
        exfalso
        simp [AliasOutput.unlockValid, hfind, hg, hr] at h
      | some pr =>
        cases pr with
        | mk valid isErr =>
          cases valid with
          | false =>
            exfalso
            simp [AliasOutput.unlockValid, hfind, hg, hr] at h
          | true =>
            cases hv : a.validateTransition c chained tx.timestamp with
            | none => rfl
            | some err =>
              exfalso
              simp [AliasOutput.unlockValid, hfind, hg, hr, hv] at h

/-- C4: whenever validateTransition accepts a transition from an alias
output to its chained successor, the successor carries the same alias
address and the same immutable data; consequently every alias unlock
accepted by UnlockValid in the presence of a chained successor preserves
these two fields. -/
theorem aliasTransition_preserves_identity (c : Crypto) (fuel : Nat)
    (a chained : AliasOutput) (tx : Transaction) (blk : UnlockBlock)
    (inputs : List Output) :
    (a.validateTransition c chained tx.timestamp = none →
      (a.getAliasAddress c).equals (chained.getAliasAddress c) = true ∧
      a.immutableData = chained.immutableData) ∧
    (a.findChainedOutputAndCheckFork c tx = Except.ok (some chained) →
      a.unlockValid c fuel tx blk inputs = UnlockOutcome.ret true false →
      (a.getAliasAddress c).equals (chained.getAliasAddress c) = true ∧
      a.immutableData = chained.immutableData) :=
  ⟨fun h => validateTransition_none_preserves c a chained tx.timestamp h,
   fun hfind h => validateTransition_none_preserves c a chained tx.timestamp
     (aliasUnlockValid_true_validates c fuel a chained tx blk inputs hfind h)⟩

/-- Witness for C4: a concrete governance transition unlocked through an
alias reference is accepted, and the alias address and immutable data
are indeed preserved. -/
theorem aliasTransition_preserves_identity_witness :
    c4a.validateTransition cryptoTrivial c4chained c4tx.timestamp = none ∧
    c4a.findChainedOutputAndCheckFork cryptoTrivial c4tx = Except.ok (some c4chained) ∧
    c4a.unlockValid cryptoTrivial 0 c4tx (UnlockBlock.aliasRef 0) c4inputs
      = UnlockOutcome.ret true false ∧
    ((c4a.getAliasAddress cryptoTrivial).equals (c4chained.getAliasAddress cryptoTrivial)
        = true ∧
      c4a.immutableData = c4chained.immutableData) := by
  refine ⟨by decide, by rfl, by decide, ?_⟩
  exact (aliasTransition_preserves_identity cryptoTrivial 0 c4a c4chained c4tx
    (UnlockBlock.aliasRef 0) c4inputs).2 (by rfl) (by decide)

/-- Strict byte order: asymmetry. -/
theorem bytesLt_asymm : ∀ (a b : List Nat), bytesLt a b = true → bytesLt b a = false := by
  intro a
  induction a with
  | nil =>
    intro b h
    cases b with
    | nil => simp [bytesLt] at h
    | cons y ys => rfl
  | cons x xs ih =>
    intro b h
    cases b with
    | nil => simp [bytesLt] at h
    | cons y ys =>
      simp only [bytesLt] at h ⊢
      by_cases h1 : x < y
      · have h2 : ¬ y < x := by omega
        simp [h1, h2]
      · by_cases h2 : y < x
        · rw [if_neg h1, if_pos h2] at h
          cases h
        · rw [if_neg h1, if_neg h2] at h
          rw [if_neg h2, if_neg h1]
          exact ih ys h

/-- Strict byte order: transitivity. -/
theorem bytesLt_trans : ∀ (a b c : List Nat),
    bytesLt a b = true → bytesLt b c = true → bytesLt a c = true := by
  intro a
  induction a with
  | nil =>
    intro b c h1 h2
    cases b with
    | nil => simp [bytesLt] at h1
    | cons y ys =>
      cases c with
      | nil => simp [bytesLt] at h2
      | cons z zs => rfl
  | cons x xs ih =>
    intro b c h1 h2
    cases b with
    | nil => simp [bytesLt] at h1
    | cons y ys =>
      cases c with
      | nil => simp [bytesLt] at h2
      | cons z zs =>
        simp only [bytesLt] at h1 h2 ⊢
        by_cases hxy : x < y
        · by_cases hyz : y < z
          · have hxz : x < z := by omega
            simp [hxz]
          · by_cases hzy : z < y
            · rw [if_neg hyz, if_pos hzy] at h2
              cases h2
            · have hyz2 : y = z := by omega
              subst hyz2
              simp [hxy]
        · by_cases hyx : y < x
          · rw [if_neg hxy, if_pos hyx] at h1
            cases h1
          · have hxy2 : x = y := by omega
            subst hxy2
            rw [if_neg hxy, if_neg hyx] at h1
            by_cases hxz : x < z
            · simp [hxz]
            · by_cases hzx : z < x
              · rw [if_neg hxz, if_pos hzx] at h2
                cases h2
              · rw [if_neg hxz, if_neg hzx] at h2 ⊢
                exact ih ys zs h1 h2

/-- Strict byte order: two lists that are mutually not less are equal. -/
theorem bytesLt_antisymm : ∀ (a b : List Nat),
    bytesLt a b = false → bytesLt b a = false → a = b := by
  intro a
  induction a with
  | nil =>
    intro b h1 _
    cases b with
    | nil => rfl
    | cons y ys => simp [bytesLt] at h1
  | cons x xs ih =>
    intro b h1 h2
    cases b with
    | nil => simp [bytesLt] at h2
    | cons y ys =>
      simp only [bytesLt] at h1 h2
      by_cases hxy : x < y
      · rw [if_pos hxy] at h1
        cases h1
      · by_cases hyx : y < x
        · rw [if_pos hyx] at h2
          cases h2
        · have hxy2 : x = y := by omega
          subst hxy2
          rw [if_neg hxy, if_neg hyx] at h1
          rw [if_neg hyx, if_neg hxy] at h2
          rw [ih ys h1 h2]

/-- The non-strict byte order is transitive. -/
theorem bytesLE_trans (a b c : List Nat) (h1 : bytesLt b a = false)
    (h2 : bytesLt c b = false) : bytesLt c a = false := by
  cases hca : bytesLt c a with
  | false => rfl
  | true =>
    exfalso
    cases hab : bytesLt a b with
    | true =>
      have hcb := bytesLt_trans c a b hca hab
      rw [hcb] at h2
      cases h2
    | false =>
      have hab2 : a = b := bytesLt_antisymm a b hab h1
      subst hab2
      rw [hca] at h2
      cases h2

/-- An element kept by the duplicate filter has a serialized form that
was not in the seen set. -/
theorem dedupe_key_not_seen (f : α → List Nat) :
    ∀ (l : List α) (seen : List (List Nat)) (y : α),
      y ∈ dedupeByBytes f l seen → f y ∉ seen := by
  intro l
  induction l with
  | nil =>
    intro seen y hy
    simp [dedupeByBytes] at hy
  | cons x xs ih =>
    intro seen y hy
    simp only [dedupeByBytes] at hy
    by_cases hx : f x ∈ seen
    · rw [if_pos hx] at hy
      exact ih seen y hy
    · rw [if_neg hx] at hy
      rcases List.mem_cons.mp hy with rfl | hy2
      · exact hx
      · intro hc
        exact ih (f x :: seen) y hy2 (List.mem_cons_of_mem _ hc)

/-- The duplicate filter keeps pairwise distinct serialized forms. -/
theorem dedupe_keys_nodup (f : α → List Nat) :
    ∀ (l : List α) (seen : List (List Nat)),
      (List.map f (dedupeByBytes f l seen)).Nodup := by
  intro l
  induction l with
  | nil =>
    intro seen
    simp [dedupeByBytes]
  | cons x xs ih =>
    intro seen
    simp only [dedupeByBytes]
    by_cases hx : f x ∈ seen
    · rw [if_pos hx]
      exact ih seen
    · rw [if_neg hx]
      simp only [List.map_cons, List.nodup_cons]
      refine ⟨?_, ih (f x :: seen)⟩
      intro hmem
      rcases List.mem_map.mp hmem with ⟨y, hy, hfy⟩
      exact dedupe_key_not_seen f xs (f x :: seen) y hy
        (by rw [hfy]; exact List.mem_cons_self _ _)

/-- The serialized forms surviving the duplicate filter are exactly the
serialized forms of the original list that are not in the seen set. -/
theorem mem_map_dedupe (f : α → List Nat) :
    ∀ (l : List α) (seen : List (List Nat)) (b : List Nat),
      b ∈ List.map f (dedupeByBytes f l seen) ↔ b ∈ List.map f l ∧ b ∉ seen := by
  intro l
  induction l with
  | nil =>
    intro seen b
    simp [dedupeByBytes]
  | cons x xs ih =>
    intro seen b
    simp only [dedupeByBytes, List.map_cons, List.mem_cons]
    by_cases hx : f x ∈ seen
    · rw [if_pos hx, ih]
      constructor
      · rintro ⟨hb, hbs⟩
        exact ⟨Or.inr hb, hbs⟩
      · rintro ⟨hb | hb, hbs⟩
        · exact absurd (hb.symm ▸ hx : b ∈ seen) hbs
        · exact ⟨hb, hbs⟩
    · rw [if_neg hx]
      simp only [List.map_cons, List.mem_cons, ih]
      constructor
      · rintro (rfl | ⟨hb, hbs⟩)
        · exact ⟨Or.inl rfl, hx⟩
        · exact ⟨Or.inr hb, fun hc => hbs (Or.inr hc)⟩
      · rintro ⟨hb | hb, hbs⟩
        · exact Or.inl hb
        · by_cases hbx : b = f x
          · exact Or.inl hbx
          · refine Or.inr ⟨hb, ?_⟩
            rintro (hbx2 | hc2)
            · exact hbx hbx2
            · exact hbs hc2

/-- sortByBytes permutes its argument. -/
theorem sortByBytes_perm (f : α → List Nat) (l : List α) :
    (sortByBytes f l).Perm l :=
  List.perm_insertionSort _ l

/-- sortByBytes sorts by the byte order on serialized forms. -/
theorem sortByBytes_sorted (f : α → List Nat) (l : List α) :
    List.Sorted (byteKeyLE f) (sortByBytes f l) := by
  haveI : IsTotal α (byteKeyLE f) := ⟨fun x y => by
    cases h : bytesLt (f y) (f x) with
    | false => exact Or.inl h
    | true => exact Or.inr (bytesLt_asymm _ _ h)⟩
  haveI : IsTrans α (byteKeyLE f) := ⟨fun x y z h1 h2 => bytesLE_trans _ _ _ h1 h2⟩
  exact List.sorted_insertionSort _ l

/-- Two byte-sorted duplicate-free key lists with the same members are
equal. -/
theorem sorted_nodup_mem_unique (k1 k2 : List (List Nat))
    (s1 : List.Sorted bytesLE k1) (s2 : List.Sorted bytesLE k2)
    (d1 : k1.Nodup) (d2 : k2.Nodup) (hm : ∀ b, b ∈ k1 ↔ b ∈ k2) : k1 = k2 := by
  haveI : IsAntisymm (List Nat) bytesLE :=
    ⟨fun a b h1 h2 => bytesLt_antisymm a b h2 h1⟩
  exact List.eq_of_perm_of_sorted ((List.perm_ext_iff_of_nodup d1 d2).mpr hm) s1 s2

/-- The canonical collection keeps exactly the distinct serialized forms
of the argument list. -/
theorem mem_map_newCollection (f : α → List Nat) (l : List α) (b : List Nat) :
    b ∈ List.map f (newCollectionByBytes f l) ↔ b ∈ List.map f l := by
  unfold newCollectionByBytes
  rw [((sortByBytes_perm f (dedupeByBytes f l [])).map f).mem_iff, mem_map_dedupe]
  simp

/-- The serialized forms of the canonical collection are duplicate free. -/
theorem nodup_map_newCollection (f : α → List Nat) (l : List α) :
    (List.map f (newCollectionByBytes f l)).Nodup := by
  unfold newCollectionByBytes
  exact (((sortByBytes_perm f (dedupeByBytes f l [])).map f).nodup_iff).mpr
    (dedupe_keys_nodup f l [])

/-- The serialized forms of the canonical collection are sorted. -/
theorem sorted_map_newCollection (f : α → List Nat) (l : List α) :
    List.Sorted bytesLE (List.map f (newCollectionByBytes f l)) := by
  unfold newCollectionByBytes
  exact List.pairwise_map.mpr (sortByBytes_sorted f (dedupeByBytes f l []))

/-- Permutation invariance of the serialized forms of the canonical
collection. -/
theorem map_newCollection_eq (f : α → List Nat) (l l2 : List α) (hp : l.Perm l2) :
    List.map f (newCollectionByBytes f l) = List.map f (newCollectionByBytes f l2) := by
  refine sorted_nodup_mem_unique _ _ (sorted_map_newCollection f l)
    (sorted_map_newCollection f l2) (nodup_map_newCollection f l)
    (nodup_map_newCollection f l2) ?_
  intro b
  rw [mem_map_newCollection, mem_map_newCollection]
  exact (hp.map f).mem_iff

/-- Counterexample to C6 as stated: two outputs that differ only in
their storage ID serialize to the same bytes (the ID is not part of the
serialized form), so the two permutations of the pair canonicalize to
collections that are not element-wise equal: each keeps its own first
occurrence. -/
theorem newOutputs_not_elementwise_counterexample :
    ([c6oA, c6oB] : List SigLockedSingleOutput).Perm [c6oB, c6oA] ∧
    c6oA.bytes = c6oB.bytes ∧
    c6oA ≠ c6oB ∧
    NewOutputs SigLockedSingleOutput.bytes [c6oA, c6oB] = some [c6oA] ∧
    NewOutputs SigLockedSingleOutput.bytes [c6oB, c6oA] = some [c6oB] ∧
    NewOutputs SigLockedSingleOutput.bytes [c6oA, c6oB]
      ≠ NewOutputs SigLockedSingleOutput.bytes [c6oB, c6oA] :=
  ⟨List.Perm.swap c6oB c6oA [], by decide, by decide, by decide, by decide, by decide⟩

/-- C6 amended: NewOutputs and NewInputs are permutation invariant and
idempotent under duplication at the level of serialized forms: for any
permutation of the argument list the constructed collections have
element-wise equal serialized forms (collections of outputs agree as a
whole, count panics included), duplicates by serialized form are reduced
to a single instance, and the result is sorted ascending by serialized
bytes; element-wise equality of the collection elements themselves
fails only when distinct elements share a serialized form. -/
theorem newOutputs_canonical (f : α → List Nat) (l l2 : List α) (hp : l.Perm l2) :
    List.map f (NewInputs f l) = List.map f (NewInputs f l2) ∧
    Option.map (List.map f) (NewOutputs f l) = Option.map (List.map f) (NewOutputs f l2) ∧
    (List.map f (NewInputs f l)).Nodup ∧
    List.Sorted bytesLE (List.map f (NewInputs f l)) ∧
    (∀ b, b ∈ List.map f (NewInputs f l) ↔ b ∈ List.map f l) := by
  have hkey := map_newCollection_eq f l l2 hp
  refine ⟨hkey, ?_, nodup_map_newCollection f l, sorted_map_newCollection f l,
    fun b => mem_map_newCollection f l b⟩
  have hlen : (newCollectionByBytes f l).length = (newCollectionByBytes f l2).length := by
    have := congrArg List.length hkey
    simpa using this
  simp only [NewOutputs]
  rw [← hlen]
  by_cases h1 : (newCollectionByBytes f l).length < minOutputCount
  · rw [if_pos h1, if_pos h1]
  · rw [if_neg h1, if_neg h1]
    by_cases h2 : (newCollectionByBytes f l).length > maxOutputCount
    · rw [if_pos h2, if_pos h2]
    · rw [if_neg h2, if_neg h2]
      simpa using hkey

/-- Witness for the amended C6 on the concrete twin outputs. -/
theorem newOutputs_canonical_witness :
    List.map SigLockedSingleOutput.bytes
        (NewInputs SigLockedSingleOutput.bytes [c6oA, c6oB])
      = List.map SigLockedSingleOutput.bytes
        (NewInputs SigLockedSingleOutput.bytes [c6oB, c6oA]) ∧
    Option.map (List.map SigLockedSingleOutput.bytes)
        (NewOutputs SigLockedSingleOutput.bytes [c6oA, c6oB])
      = Option.map (List.map SigLockedSingleOutput.bytes)
        (NewOutputs SigLockedSingleOutput.bytes [c6oB, c6oA]) := by
  have h := newOutputs_canonical SigLockedSingleOutput.bytes [c6oA, c6oB] [c6oB, c6oA]
    (List.Perm.swap c6oB c6oA [])
  exact ⟨h.1, h.2.1⟩

/-- Looking up under a cons with a matching key returns its value. -/
theorem lookup_cons_eq_key {k id : String} (v : VoteContext)
    (ps : List (String × VoteContext)) (h : (id == k) = true) :
    List.lookup id ((k, v) :: ps) = some v := by
  simp [List.lookup, h]

/-- Looking up under a cons with a different key skips it. -/
theorem lookup_cons_ne_key {k id : String} (v : VoteContext)
    (ps : List (String × VoteContext)) (h : (id == k) = false) :
    List.lookup id ((k, v) :: ps) = List.lookup id ps := by
  simp [List.lookup, h]

/-- Key-preserving entry transformations of the active-contexts list
preserve lookup success. -/
theorem lookup_map_keyfix_isSome (F : String × VoteContext → String × VoteContext)
    (hF : ∀ p, (F p).1 = p.1) :
    ∀ (l : List (String × VoteContext)) (id : String),
      ((l.map F).lookup id).isSome = ((l.lookup id).isSome) := by
  intro l
  induction l with
  | nil => intro id; rfl
  | cons p ps ih =>
    intro id
    simp only [List.map_cons]
    rcases hFp : F p with ⟨k2, v2⟩
    rcases p with ⟨k, v⟩
    have hk2 : k2 = k := by
      have hh := hF (k, v)
      rw [hFp] at hh
      exact hh
    subst hk2
    cases hid : id == k2 with
    | true =>
      rw [lookup_cons_eq_key v2 _ hid, lookup_cons_eq_key v ps hid]
      rfl
    | false =>
      rw [lookup_cons_ne_key v2 _ hid, lookup_cons_ne_key v ps hid]
      exact ih id

/-- Overwriting the entry of one id preserves lookup success for every
id. -/
theorem lookup_update_isSome (cs : List (String × VoteContext)) (idk id : String)
    (ctx : VoteContext) :
    ((cs.map (fun p => if p.1 == idk then (idk, ctx) else p)).lookup id).isSome
      = ((cs.lookup id).isSome) := by
  induction cs with
  | nil => rfl
  | cons p ps ih =>
    cases p with
    | mk k v =>
      simp only [List.map_cons]
      dsimp only
      cases hp : k == idk with
      | true =>
        rw [if_pos rfl]
        have hk : k = idk := by simpa using hp
        subst hk
        cases hid : id == k with
        | true =>
          rw [lookup_cons_eq_key ctx _ hid, lookup_cons_eq_key v ps hid]
          rfl
        | false =>
          rw [lookup_cons_ne_key ctx _ hid, lookup_cons_ne_key v ps hid]
          exact ih
      | false =>
        rw [if_neg (by simp)]
        cases hid : id == k with
        | true =>
          rw [lookup_cons_eq_key v _ hid, lookup_cons_eq_key v ps hid]
        | false =>
          rw [lookup_cons_ne_key v _ hid, lookup_cons_ne_key v ps hid]
          exact ih

/-- A lookup that succeeds on the prefix also succeeds on the appended
list. -/
theorem lookup_append_left_isSome (cs ds : List (String × VoteContext)) (id : String)
    (h : (cs.lookup id).isSome = true) : ((cs ++ ds).lookup id).isSome = true := by
  induction cs with
  | nil => simp [List.lookup] at h
  | cons p ps ih =>
    cases p with
    | mk k v =>
      by_cases hid : (id == k) = true
      · simp [List.lookup, hid]
      · simp only [List.lookup, hid] at h
        simp [List.lookup, hid, ih h]

/-- Looking up the id of a freshly appended entry succeeds. -/
theorem lookup_append_single (cs : List (String × VoteContext)) (idk : String)
    (ctx : VoteContext) : ((cs ++ [(idk, ctx)]).lookup idk).isSome = true := by
  induction cs with
  | nil => simp [List.lookup]
  | cons p ps ih =>
    cases p with
    | mk k v =>
      by_cases hid : (idk == k) = true
      · simp [List.lookup, hid]
      · simp [List.lookup, hid, ih]

/-- ctxsInsert makes its own id present. -/
theorem ctxsInsert_lookup_self (cs : List (String × VoteContext)) (idk : String)
    (ctx : VoteContext) : ((ctxsInsert cs idk ctx).lookup idk).isSome = true := by
  unfold ctxsInsert
  by_cases hin : ((cs.lookup idk).isSome) = true
  · rw [if_pos hin, lookup_update_isSome]
    exact hin
  · rw [if_neg hin]
    exact lookup_append_single cs idk ctx

/-- ctxsInsert keeps every id that was present. -/
theorem ctxsInsert_lookup_mono (cs : List (String × VoteContext)) (idk id : String)
    (ctx : VoteContext) (h : ((cs.lookup id).isSome) = true) :
    ((ctxsInsert cs idk ctx).lookup id).isSome = true := by
  unfold ctxsInsert
  by_cases hin : ((cs.lookup idk).isSome) = true
  · rw [if_pos hin, lookup_update_isSome]
    exact h
  · rw [if_neg hin]
    exact lookup_append_left_isSome cs _ id h

/-- Draining a queue through ctxsInsert makes every queued id and every
previously present id present. -/
theorem foldl_ctxsInsert_lookup (q : List VoteContext) :
    ∀ (cs : List (String × VoteContext)) (id : String),
      (id ∈ q.map VoteContext.id ∨ ((cs.lookup id).isSome) = true) →
      (((q.foldl (fun cs2 ctx => ctxsInsert cs2 ctx.id ctx) cs).lookup id).isSome) = true := by
  induction q with
  | nil =>
    intro cs id h
    rcases h with h | h
    · simp at h
    · exact h
  | cons ctx q ih =>
    intro cs id h
    simp only [List.foldl_cons]
    apply ih
    rcases h with h | h
    · rw [List.map_cons] at h
      rcases List.mem_cons.mp h with heq | hmem
      · right
        rw [heq]
        exact ctxsInsert_lookup_self cs ctx.id ctx
      · exact Or.inl hmem
    · exact Or.inr (ctxsInsert_lookup_mono cs ctx.id id ctx h)

/-- A kept entry survives filtering as the first match of its id. -/
theorem lookup_filter_kept (p : String × VoteContext → Bool) :
    ∀ (l : List (String × VoteContext)) (id : String) (ctx : VoteContext),
      l.lookup id = some ctx → p (id, ctx) = true →
      (l.filter p).lookup id = some ctx := by
  intro l
  induction l with
  | nil =>
    intro id ctx h _
    simp [List.lookup] at h
  | cons q qs ih =>
    intro id ctx h hp
    cases q with
    | mk k v =>
      by_cases hid : (id == k) = true
      · have hkid : id = k := by simpa using hid
        simp only [List.lookup, hid] at h
        cases h
        subst hkid
        rw [List.filter_cons]
        rw [if_pos (by exact hp)]
        simp [List.lookup]
      · simp only [List.lookup, hid] at h
        rw [List.filter_cons]
        by_cases hpk : p (k, v) = true
        · rw [if_pos hpk]
          simp only [List.lookup, hid]
          exact ih id ctx h hp
        · rw [if_neg hpk]
          exact ih id ctx h hp

/-- queryOpinions only updates context values: lookup success on the
active contexts is unchanged by a successful query phase. -/
theorem queryOpinions_ok_lookup (env : QueryEnv) (paras : FPCParameters)
    (st st2 : FPCState) (id : String)
    (h : queryOpinions env paras st = Except.ok st2) :
    ((st2.ctxs.lookup id).isSome) = ((st.ctxs.lookup id).isSome) := by
  simp only [queryOpinions] at h
  split at h
  · cases h
    rfl
  · split at h
    · cases h
    · split at h
      · cases h
      · split at h
        · cases h
        · cases h
          dsimp only
          apply lookup_map_keyfix_isSome
          intro p
          rfl

/-- C5: under the invariant coupling the queued-id set to the pending
queue (which Vote and enqueue preserve), Vote(id, type, init) returns
the DuplicateVote error exactly when id is already in the pending queue
or in the active-contexts map; otherwise it returns nil and appends the
freshly created vote context to the back of the FIFO queue, after which
another Vote for the same id fails; and a Round call keeps a tracked id
tracked unless the finalize step removed its context because it was
finalized or had reached the round ceiling, so Vote succeeds at most
once while the id is unfinalized. -/
theorem fpcVote_enqueue_once (st : FPCState) (id : String)
    (objType objType2 : VoteObjectType) (initOpn initOpn2 : Opinion)
    (hc : queueCoupled st) :
    ((fpcVote st id objType initOpn).1 = some FPCErr.duplicateVote ↔
      id ∈ st.queue.map VoteContext.id ∨ ((st.ctxs.lookup id).isSome) = true) ∧
    ((fpcVote st id objType initOpn).1 = none →
      (fpcVote st id objType initOpn).2.queue
        = st.queue ++ [newVoteContext id objType initOpn]) ∧
    ((fpcVote st id objType initOpn).1 = none →
      (fpcVote ((fpcVote st id objType initOpn).2) id objType2 initOpn2).1
        = some FPCErr.duplicateVote) ∧
    (∀ (env : QueryEnv) (rand : Rat) (paras : FPCParameters),
      trackedIn st id →
      trackedIn ((fpcRound env rand paras st).2) id ∨
      ∃ ctx, (fpcFormOpinions paras rand (fpcEnqueue st)).ctxs.lookup id = some ctx ∧
        (ctx.isFinalized paras.totalRoundsCoolingOffPeriod paras.totalRoundsFinalization
            = true
          ∨ paras.maxRoundsPerVoteContext ≤ ctx.rounds)) := by
  have hqs : st.queueSet = st.queue.map VoteContext.id := hc
  refine ⟨?_, ?_, ?_, ?_⟩
  · constructor
    · intro h
      by_cases h1 : id ∈ st.queueSet
      · left
        rw [← hqs]
        exact h1
      · by_cases h2 : ((st.ctxs.lookup id).isSome) = true
        · exact Or.inr h2
        · exfalso
          simp [fpcVote, h1, h2] at h
    · intro h
      rcases h with h | h
      · have h1 : id ∈ st.queueSet := by rw [hqs]; exact h
        simp [fpcVote, h1]
      · by_cases h1 : id ∈ st.queueSet
        · simp [fpcVote, h1]
        · simp [fpcVote, h1, h]
  · intro h
    have h1 : ¬ id ∈ st.queueSet := by
      intro hin
      simp [fpcVote, hin] at h
    have h2 : ¬ ((st.ctxs.lookup id).isSome) = true := by
      intro hin
      simp [fpcVote, h1, hin] at h
    simp [fpcVote, h1, h2]
  · intro h
    have h1 : ¬ id ∈ st.queueSet := by
      intro hin
      simp [fpcVote, hin] at h
    have h2 : ¬ ((st.ctxs.lookup id).isSome) = true := by
      intro hin
      simp [fpcVote, h1, hin] at h
    have hstate : (fpcVote st id objType initOpn).2.queueSet = st.queueSet ++ [id] := by
      simp [fpcVote, h1, h2]
    have hmem : id ∈ (fpcVote st id objType initOpn).2.queueSet := by
      rw [hstate]
      simp
    revert hmem
    generalize (fpcVote st id objType initOpn).2 = S
    intro hmem
    simp [fpcVote, hmem]
  · intro env rand paras htr
    have hE : (fpcEnqueue st).lastRoundCompletedSuccessfully
        = st.lastRoundCompletedSuccessfully := rfl
    have hEnq : (((fpcEnqueue st).ctxs.lookup id).isSome) = true := by
      simp only [fpcEnqueue]
      apply foldl_ctxsInsert_lookup
      rcases htr with h | h
      · left
        rw [← hqs]
        simpa using h
      · exact Or.inr h
    have hForm : (((fpcFormOpinions paras rand (fpcEnqueue st)).ctxs.lookup id).isSome)
        = true := by
      simp only [fpcFormOpinions]
      rw [lookup_map_keyfix_isSome (fun p => (p.1, formOpinionOne paras rand p.2))
        (fun p => rfl)]
      exact hEnq
    rcases Option.isSome_iff_exists.mp hForm with ⟨ctx, hctx⟩
    by_cases hflag : st.lastRoundCompletedSuccessfully = true
    · by_cases hkeep :
        (!(ctx.isFinalized paras.totalRoundsCoolingOffPeriod paras.totalRoundsFinalization)
          && !(decide (ctx.rounds ≥ paras.maxRoundsPerVoteContext))) = true
      · left
        have hFin : ((fpcFinalize paras
            (fpcFormOpinions paras rand (fpcEnqueue st))).ctxs.lookup id).isSome = true := by
          simp only [fpcFinalize]
          rw [lookup_filter_kept _ _ id ctx hctx hkeep]
          rfl
        have hInc : ((fpcIncrementRounds (fpcFinalize paras
            (fpcFormOpinions paras rand (fpcEnqueue st)))).ctxs.lookup id).isSome = true := by
          simp only [fpcIncrementRounds]
          rw [lookup_map_keyfix_isSome (fun p => (p.1, { p.2 with rounds := p.2.rounds + 1 }))
            (fun p => rfl)]
          exact hFin
        simp only [fpcRound]
        rw [hE, if_pos hflag]
        cases hq : queryOpinions env paras (fpcIncrementRounds (fpcFinalize paras
            (fpcFormOpinions paras rand (fpcEnqueue st)))) with
        | ok st4 =>
          have hq2 := queryOpinions_ok_lookup env paras _ st4 id hq
          refine Or.inr ?_
          dsimp only
          rw [hq2]
          exact hInc
        | error e =>
          exact Or.inr hInc
      · right
        refine ⟨ctx, hctx, ?_⟩
        by_cases hfin : ctx.isFinalized paras.totalRoundsCoolingOffPeriod
            paras.totalRoundsFinalization = true
        · exact Or.inl hfin
        · right
          simp [hfin] at hkeep
          exact hkeep
    · left
      have hInc : ((fpcIncrementRounds (fpcEnqueue st)).ctxs.lookup id).isSome = true := by
        simp only [fpcIncrementRounds]
        rw [lookup_map_keyfix_isSome (fun p => (p.1, { p.2 with rounds := p.2.rounds + 1 }))
          (fun p => rfl)]
        exact hEnq
      simp only [fpcRound]
      rw [hE, if_neg hflag]
      cases hq : queryOpinions env paras (fpcIncrementRounds (fpcEnqueue st)) with
      | ok st4 =>
        have hq2 := queryOpinions_ok_lookup env paras _ st4 id hq
        refine Or.inr ?_
        dsimp only
        rw [hq2]
        exact hInc
      | error e =>
        exact Or.inr hInc

/-- Witness for C5: on the empty instance the first admission of the id
a succeeds and appends its context, the second admission fails, and a
round keeps the id tracked or reports it finalized. -/
theorem fpcVote_enqueue_once_witness :
    (fpcVote c5empty "a" VoteObjectType.conflict Opinion.like).1 = none ∧
    (fpcVote c5empty "a" VoteObjectType.conflict Opinion.like).2.queue
      = c5empty.queue ++ [newVoteContext "a" VoteObjectType.conflict Opinion.like] ∧
    (fpcVote c5voted "a" VoteObjectType.conflict Opinion.like).1
      = some FPCErr.duplicateVote ∧
    (trackedIn ((fpcRound c3envBad 0 c3paras c5voted).2) "a" ∨
      ∃ ctx, (fpcFormOpinions c3paras 0 (fpcEnqueue c5voted)).ctxs.lookup "a" = some ctx ∧
        (ctx.isFinalized c3paras.totalRoundsCoolingOffPeriod c3paras.totalRoundsFinalization
            = true
          ∨ c3paras.maxRoundsPerVoteContext ≤ ctx.rounds)) := by
  have hA := fpcVote_enqueue_once c5empty "a" VoteObjectType.conflict VoteObjectType.conflict
    Opinion.like Opinion.like rfl
  have hB := fpcVote_enqueue_once c5voted "a" VoteObjectType.conflict VoteObjectType.conflict
    Opinion.like Opinion.like rfl
  refine ⟨by decide, hA.2.1 (by decide), hB.1.mpr (Or.inl (by decide)),
    hB.2.2.2 c3envBad 0 c3paras (Or.inl (by decide))⟩

end GoShimmer
